import Mathlib

/-!
Verification development for a three-script pipeline that generates
(channel, permission-category, status) triples from an app database
(`permission_triple_generator.py`), re-parses them and computes consistency
metrics (`consistency_visualization.py`), and runs supplementary analyses
(`permission_visual_analysis.py`).

All definitions are shallow embeddings of the Python source.  Python strings
are Lean `String`s; the handful of string primitives the scripts use
(`strip`, `startswith`, `replace`, `split`, `in`, `lower`, `int(...)`) are
re-implemented below on `List Char` so that every definition is executable
and kernel-reducible.  Python `dict`s (which preserve insertion order) are
embedded as association lists with insert-or-update-in-place semantics.
Divisions are carried out in `ℚ`.
-/

namespace PyStr

/-- `s.strip()` on a character list: drop whitespace from both ends. -/
def charsTrim (l : List Char) : List Char :=
  ((l.dropWhile Char.isWhitespace).reverse.dropWhile Char.isWhitespace).reverse

/-- Python `s.strip()` (the scripts only ever strip whitespace). -/
def strTrim (s : String) : String := String.mk (charsTrim s.toList)

/-- Python `s.startswith(p)`. -/
def strStartsWith (s p : String) : Bool := p.toList.isPrefixOf s.toList

/-- Split a character list on a separator character; like Python `str.split`,
the result always has one more chunk than there are separators (so the result
is never empty, and splitting the empty list gives `[[]]`). -/
def charsSplit (sep : Char) : List Char → List (List Char)
  | [] => [[]]
  | c :: rest =>
    match charsSplit sep rest with
    | [] => [[c]]
    | h :: t => if c = sep then [] :: h :: t else (c :: h) :: t

/-- Python `s.split(sep)` for a one-character separator. -/
def strSplitOnChar (s : String) (sep : Char) : List String :=
  (charsSplit sep s.toList).map String.mk

/-- Python `c in s` for a single character `c`. -/
def strContainsChar (s : String) (c : Char) : Bool := s.toList.contains c

/-- Substring test on character lists. -/
def charsHasInfix (pat : List Char) : List Char → Bool
  | [] => pat.isPrefixOf ([] : List Char)
  | c :: rest => pat.isPrefixOf (c :: rest) || charsHasInfix pat rest

/-- Python `pat in s` (substring containment). -/
def strContainsSub (s pat : String) : Bool := charsHasInfix pat.toList s.toList

/-- Left-to-right removal of all (non-overlapping) occurrences of `pat`,
fuelled so the recursion is structural (each step consumes at least one
character, so any `fuel ≥ l.length` computes the fixpoint). -/
def charsRemoveAllFuel (pat : List Char) : Nat → List Char → List Char
  | 0, l => l
  | _, [] => []
  | fuel + 1, c :: rest =>
    if pat ≠ [] ∧ pat.isPrefixOf (c :: rest) = true then
      charsRemoveAllFuel pat fuel (rest.drop (pat.length - 1))
    else c :: charsRemoveAllFuel pat fuel rest

/-- Left-to-right removal of all (non-overlapping) occurrences of `pat`,
modelling Python `s.replace(pat, '')` for nonempty `pat`. -/
def charsRemoveAll (pat l : List Char) : List Char :=
  charsRemoveAllFuel pat l.length l

/-- Python `s.replace(pat, '')`. -/
def strReplaceAll (s pat : String) : String :=
  String.mk (charsRemoveAll pat.toList s.toList)

/-- Python `s.lower()` (ASCII case folding suffices for the sources' uses). -/
def strToLower (s : String) : String := String.mk (s.toList.map Char.toLower)

/-- Value of a nonempty all-digit character list. -/
def charsNatVal (l : List Char) : Option Nat :=
  if l ≠ [] ∧ l.all Char.isDigit then
    some (l.foldl (fun n c => 10 * n + (c.toNat - 48)) 0)
  else none

/-- Python `int(s)` (decimal): optional surrounding whitespace, optional sign,
then at least one digit; anything else raises `ValueError`, modelled as
`none`. -/
def pyInt (s : String) : Option Int :=
  match charsTrim s.toList with
  | '-' :: ds => (charsNatVal ds).map (fun n => -(n : Int))
  | '+' :: ds => (charsNatVal ds).map (fun n => (n : Int))
  | ds => (charsNatVal ds).map (fun n => (n : Int))

end PyStr

open PyStr

/-! ## permission_triple_generator.py -/

/-- The nine permission categories (keys of `PERMISSION_MAPPING`). -/
inductive Cat where
  | Location | Contacts | Phone | SMS | Storage | Camera | Microphone | Calendar | Sensors
deriving DecidableEq, Repr, Fintype

/-- The string name of a category, as it appears in the Python dict keys and
in the emitted triples. -/
def Cat.name : Cat → String
  | .Location => "Location"
  | .Contacts => "Contacts"
  | .Phone => "Phone"
  | .SMS => "SMS"
  | .Storage => "Storage"
  | .Camera => "Camera"
  | .Microphone => "Microphone"
  | .Calendar => "Calendar"
  | .Sensors => "Sensors"

/-- `PERMISSION_MAPPING` from permission_triple_generator.py, in source
(insertion) order. -/
def PERMISSION_MAPPING : List (Cat × List String) :=
  [ (.Location, ["Location", "Geolocation", "GPS", "Place", "Address", "Coordinates"]),
    (.Contacts, ["Contacts", "Address Book", "People", "Phonebook", "Contact List",
                 "Contact Details"]),
    (.Phone, ["Device or other IDs", "IMEI", "SIM Serial", "Phone Number", "Line 1 Number",
              "Network Country ISO", "Network Operator", "Subscriber ID",
              "Wi-Fi connection information", "Bluetooth MAC Address", "Cellular Network Info",
              "Phone Calls", "Call Log", "Call History", "Personal info", "App activity",
              "App info and performance"]),
    (.SMS, ["Messages", "SMS", "MMS", "Text Messages", "Call Log", "Call History", "SMS/MMS"]),
    (.Storage, ["Photos and videos", "Files and docs", "Photos/Media/Files", "Document Files",
                "Media Files", "Internal Storage", "External Storage", "SD Card Access",
                "Storage", "Financial info", "Audio files", "Web browsing"]),
    (.Camera, ["Photos and videos", "Camera", "Take Photos", "Take Videos", "Camera Metadata",
               "Image Capture", "Video Capture", "Camera Access"]),
    (.Microphone, ["Audio", "Microphone", "Voice Recording", "Sound Input", "Audio Capture",
                   "Microphone Access"]),
    (.Calendar, ["Calendar", "Events", "Reminders", "Calendar Events", "Calendar Access",
                 "Calendar Data"]),
    (.Sensors, ["Sensors", "Sensor Data", "Accelerometer", "Gyroscope", "Magnetometer",
                "Light Sensor", "Proximity Sensor", "Barometer", "Humidity Sensor",
                "Temperature Sensor", "Sensor Access", "Health and fitness"]) ]

/-- `PERMISSION_CATEGORIES = list(PERMISSION_MAPPING.keys())`. -/
def PERMISSION_CATEGORIES : List Cat := PERMISSION_MAPPING.map (·.1)

/-- `REVERSE_MAPPING[item]` (categories whose vocabulary lists contain `item`,
in `PERMISSION_MAPPING` insertion order; empty when the key is absent). -/
def reverseMappingCats (item : String) : List Cat :=
  (PERMISSION_MAPPING.filter (fun p => p.2.contains item)).map (·.1)

/-- `_map_single_item(item)` — the Python function returns a `set` of category
names; we return the corresponding duplicate-free list of `Cat`s. -/
def mapSingleItem (item : String) : List Cat :=
  if reverseMappingCats item ≠ [] then reverseMappingCats item
  else if item = "App info and performance" then []
  else if strContainsSub (strToLower item) "sensors" || strContainsSub (strToLower item) "sensor" then
    [Cat.Sensors]
  else []

/-- The `app_info` dict built at the top of `analyze_permissions`. -/
structure AppInfo where
  app_name : String
  app_id : String
  genre : String
deriving DecidableEq, Repr

/-- A channel field value in an app record: the code distinguishes lists from
scalars (`isinstance(field_value, list)`); a scalar is observed only through
`str(field_value)`, so we carry its string form. -/
inductive FieldVal where
  | flist (items : List String)
  | fscalar (value : String)
deriving DecidableEq, Repr

/-- An app record from the JSON database.  `none` models an absent key. -/
structure AppJson where
  name : Option String := none
  _id : Option String := none
  genre : Option String := none
  data_collected : Option FieldVal := none
  permission : Option FieldVal := none
  security_practices : Option FieldVal := none
deriving DecidableEq, Repr

/-- One element of the `results` list of `analyze_permissions`:
`(app_info, channel_name, category, status)`. -/
structure GenTriple where
  info : AppInfo
  channel : String
  permission : String
  status : Int
deriving DecidableEq, Repr

/-- `app_info = {'app_name': app_data.get('name','unknown'), ...}`. -/
def appInfoOf (a : AppJson) : AppInfo :=
  { app_name := a.name.getD "unknown",
    app_id := a._id.getD "unknown",
    genre := a.genre.getD "unknown" }

/-- One `for category in categories` iteration of the list branch of
`analyze_permissions`: update (`permission_status`, `has_conflict`) at the
category a raw item mapped to. -/
def chanStep (st : (Cat → Int) × (Cat → Bool)) (cat : Cat) : (Cat → Int) × (Cat → Bool) :=
  if st.1 cat = 0 then (fun c => if c = cat then 1 else st.1 c, st.2)
  else if st.1 cat = -1 then (st.1, fun c => if c = cat then true else st.2 c)
  else st

/-- One `for item in field_value` iteration: fold `chanStep` over the item's
category set. -/
def chanItemStep (st : (Cat → Int) × (Cat → Bool)) (item : String) :
    (Cat → Int) × (Cat → Bool) :=
  (mapSingleItem item).foldl chanStep st

/-- The item loop of the list branch of `analyze_permissions`: fold the raw
items into (`permission_status`, `has_conflict`), both initialized at
(`0`, `False`) for every category.  (`permission_items` is also filled by
the source but never read afterwards, so it is omitted.) -/
def listChannelState (items : List String) : (Cat → Int) × (Cat → Bool) :=
  items.foldl chanItemStep (fun _ => 0, fun _ => false)

/-- The per-channel body of `analyze_permissions` (field absent / list-valued /
scalar-valued branches). -/
def analyzeChannel (info : AppInfo) (channelName : String) (field : Option FieldVal) :
    List GenTriple :=
  match field with
  | none => PERMISSION_CATEGORIES.map (fun cat => ⟨info, channelName, cat.name, 0⟩)
  | some (.flist items) =>
    let st := listChannelState items
    PERMISSION_CATEGORIES.map (fun cat =>
      if st.2 cat then ⟨info, channelName, cat.name, -1⟩
      else ⟨info, channelName, cat.name, st.1 cat⟩)
  | some (.fscalar v) =>
    let cats := mapSingleItem v
    cats.map (fun cat => (⟨info, channelName, cat.name, 1⟩ : GenTriple))
      ++ (PERMISSION_CATEGORIES.filter (fun cat => !(cats.contains cat))).map
          (fun cat => (⟨info, channelName, cat.name, 0⟩ : GenTriple))

/-- `analyze_permissions(app_data)`: the three channels in `CHANNELS`
insertion order (`data_collected` → 渠道一, `permission` → 渠道二,
`security_practices` → 渠道三). -/
def analyzePermissions (a : AppJson) : List GenTriple :=
  let info := appInfoOf a
  analyzeChannel info "渠道一" a.data_collected
    ++ analyzeChannel info "渠道二" a.permission
    ++ analyzeChannel info "渠道三" a.security_practices

/-- `process_app_database` minus the I/O: concatenate the per-app results. -/
def processAppDatabase (apps : List AppJson) : List GenTriple :=
  apps.foldl (fun acc a => acc ++ analyzePermissions a) []

/-- The three channels, for quantifying over the fixed `CHANNELS` dict. -/
inductive Chan where
  | c1 | c2 | c3
deriving DecidableEq, Repr, Fintype

/-- Channel display name (`CHANNELS` values). -/
def Chan.chanName : Chan → String
  | .c1 => "渠道一"
  | .c2 => "渠道二"
  | .c3 => "渠道三"

/-- The app-record field feeding each channel (`CHANNELS` keys). -/
def AppJson.channelField (a : AppJson) : Chan → Option FieldVal
  | .c1 => a.data_collected
  | .c2 => a.permission
  | .c3 => a.security_practices

/-- Concrete app record exercising the generator's internal-contradiction
path: two raw items that both map to "Phone", the first being the one the
mapper's own special case marks as an absence-context item. -/
def c1App : AppJson :=
  { name := some "A", _id := some "1", genre := some "G",
    data_collected := some (.flist ["App info and performance", "IMEI"]) }

/-! ## load_triple_data (consistency_visualization.py and
permission_visual_analysis.py — the parsing loop is duplicated verbatim in
the two scripts) -/

/-- One parsed triple line: `{'channel': ..., 'permission': ..., 'status': ...}`. -/
structure PTriple where
  channel : String
  permission : String
  status : Int
deriving DecidableEq, Repr

/-- One parsed app block. -/
structure ParsedApp where
  app_name : String
  app_id : String
  genre : String
  triples : List PTriple
deriving DecidableEq, Repr

/-- The mutable `current_app` dict; `none` models a key that has not been
assigned, and the dict is falsy iff all three keys are absent. -/
structure CurApp where
  name : Option String := none
  id : Option String := none
  genre : Option String := none
deriving DecidableEq, Repr

/-- Python truthiness of the `current_app` dict (nonempty = truthy). -/
def CurApp.truthy (c : CurApp) : Bool := c.name.isSome || c.id.isSome || c.genre.isSome

/-- `current_app['triples'] = triples; apps_data.append(current_app)`.
(A `current_app` still missing keys here is possible only for files whose
first block starts mid-way; the Python scripts would crash on the later
`app['genre']`-style accesses, and we default such keys to `''`.) -/
def CurApp.finalize (c : CurApp) (triples : List PTriple) : ParsedApp :=
  { app_name := c.name.getD "", app_id := c.id.getD "", genre := c.genre.getD "",
    triples := triples }

/-- Loop state of `load_triple_data`: (`apps_data`, `current_app`, `triples`). -/
structure ParseState where
  apps : List ParsedApp
  cur : CurApp
  triples : List PTriple
deriving DecidableEq, Repr

def initParseState : ParseState := ⟨[], {}, []⟩

/-- The body of the `for line in lines` loop of `load_triple_data`
(identical in both scripts): strip the line, skip blanks, dispatch on the
`应用名称:`/`应用ID:`/`应用类别:`/`权限三元组:`/`---` markers, and otherwise
parse comma lines with exactly three fields and an integer status. -/
def parseLine (st : ParseState) (raw : String) : ParseState :=
  let line := strTrim raw
  if line = "" then st
  else if strStartsWith line "应用名称:" then
    let st' :=
      if st.cur.truthy && !st.triples.isEmpty then
        { st with apps := st.apps ++ [st.cur.finalize st.triples], triples := [] }
      else st
    { st' with cur := { name := some (strTrim (strReplaceAll line "应用名称:")),
                        id := some "", genre := some "" } }
  else if strStartsWith line "应用ID:" then
    { st with cur := { st.cur with id := some (strTrim (strReplaceAll line "应用ID:")) } }
  else if strStartsWith line "应用类别:" then
    { st with cur := { st.cur with genre := some (strTrim (strReplaceAll line "应用类别:")) } }
  else if strStartsWith line "权限三元组:" then st
  else if strStartsWith line "---" then
    if st.cur.truthy && !st.triples.isEmpty then
      { apps := st.apps ++ [st.cur.finalize st.triples], cur := {}, triples := [] }
    else st
  else if strContainsChar line ',' then
    match strSplitOnChar line ',' with
    | [channel, permission, status] =>
      match pyInt status with
      | some n => { st with triples := st.triples ++ [⟨channel, permission, n⟩] }
      | none => st
    | _ => st
  else st

/-- The line loop plus the trailing "save the last app" flush. -/
def parseLines (lines : List String) : List ParsedApp :=
  let st := lines.foldl parseLine initParseState
  if st.cur.truthy && !st.triples.isEmpty then st.apps ++ [st.cur.finalize st.triples]
  else st.apps

/-- `load_triple_data` from consistency_visualization.py: split the file into
lines, drop the first line when it contains a comma (the optional CSV
header), then run the parsing loop. -/
def loadTripleData (file : String) : List ParsedApp :=
  match strSplitOnChar file '\n' with
  | [] => parseLines []
  | l₀ :: rest =>
    if strContainsChar l₀ ',' then parseLines rest else parseLines (l₀ :: rest)

/-- `load_triple_data` from permission_visual_analysis.py — the source is a
verbatim copy of the consistency_visualization.py reader (minus storing the
header in an unused variable), so the embedding shares `parseLines`. -/
def loadTripleDataVA (file : String) : List ParsedApp :=
  match strSplitOnChar file '\n' with
  | [] => parseLines []
  | l₀ :: rest =>
    if strContainsChar l₀ ',' then parseLines rest else parseLines (l₀ :: rest)

/-- Header-less file whose first line is an `应用名称` line with a comma in
the display name. -/
def c10File : String :=
  "应用名称: Foo, Inc\n应用ID: 7\n应用类别: G\n渠道一,Location,1"

/-! ## Python dicts as insertion-ordered association lists -/

/-- Python `d[k] = v`: update in place if the key exists, else append. -/
def dictSet [BEq α] (m : List (α × β)) (k : α) (v : β) : List (α × β) :=
  if m.any (fun p => p.1 == k) then
    m.map (fun p => if p.1 == k then (k, v) else p)
  else m ++ [(k, v)]

/-- Python `d.get(k)` / `d[k]` lookup. -/
def dictFind [BEq α] (m : List (α × β)) (k : α) : Option β :=
  (m.find? (fun p => p.1 == k)).map (·.2)

/-- Python `k in d`. -/
def dictContains [BEq α] (m : List (α × β)) (k : α) : Bool :=
  m.any (fun p => p.1 == k)

/-! ## consistency_visualization.py : calculate_metrics -/

/-- `permission_channels[permission][channel] = status` on the nested
insertion-ordered dict (`defaultdict(dict)`). -/
def pcUpdate (m : List (String × List (String × Int))) (p c : String) (s : Int) :
    List (String × List (String × Int)) :=
  dictSet m p (dictSet ((dictFind m p).getD []) c s)

/-- The per-app grouping `permission_channels`: category → (channel → status),
built by iterating the app's triples in order (later duplicates overwrite). -/
def permissionChannels (triples : List PTriple) : List (String × List (String × Int)) :=
  triples.foldl (fun m t => pcUpdate m t.permission t.channel t.status) []

/-- One iteration of the grouping loop together with the internal-contradiction
check: a point is scored when the (permission, channel) slot is already
occupied by a different status, then the slot is overwritten. -/
def icaStep (st : Nat × List (String × List (String × Int))) (t : PTriple) :
    Nat × List (String × List (String × Int)) :=
  let hit :=
    match dictFind ((dictFind st.2 t.permission).getD []) t.channel with
    | some s => if s ≠ t.status then 1 else 0
    | none => 0
  (st.1 + hit, pcUpdate st.2 t.permission t.channel t.status)

/-- Number of ICA points one app's triple list scores. -/
def icaCountApp (triples : List PTriple) : Nat :=
  (triples.foldl icaStep (0, [])).1

/-- `ica_count` accumulated over all apps. -/
def icaCount (apps : List ParsedApp) : Nat :=
  apps.foldl (fun n a => n + icaCountApp a.triples) 0

/-- `total_permissions` in `calculate_metrics`: incremented once per triple
of every app (not deduplicated). -/
def totalPermissionsMetrics (apps : List ParsedApp) : Nat :=
  apps.foldl (fun n a => n + a.triples.length) 0

/-- `ica_ratio = ica_count / total_permissions * 100 if total_permissions > 0
else 0`. -/
def icaRatioMetric (apps : List ParsedApp) : ℚ :=
  if totalPermissionsMetrics apps > 0 then
    (icaCount apps : ℚ) / (totalPermissionsMetrics apps : ℚ) * 100
  else 0

/-- The app-level consistency test on one grouping entry:
`len(channels) == 3 and all(s == statuses[0] for s in statuses) and
statuses[0] != -1` (the same expression appears verbatim in
`calculate_metrics` and in `analyze_channel_consistency`). -/
def consistentInner (inner : List (String × Int)) : Bool :=
  inner.length == 3 &&
    (match inner.map (·.2) with
     | [] => false
     | s :: rest => rest.all (· == s) && s != -1)

/-- `app_total = len(permission_channels)`. -/
def appTotal (a : ParsedApp) : Nat := (permissionChannels a.triples).length

/-- `app_consistent`: grouping entries passing the consistency test. -/
def appConsistent (a : ParsedApp) : Nat :=
  ((permissionChannels a.triples).filter (fun e => consistentInner e.2)).length

/-- `apps_occ`: per-app OCC percentages, in file order, for apps with at
least one grouped category. -/
def appsOcc (apps : List ParsedApp) : List ℚ :=
  apps.filterMap (fun a =>
    if appTotal a > 0 then some ((appConsistent a : ℚ) / (appTotal a : ℚ) * 100) else none)

/-- `ccor_data[genre]['total'] += 1` (and conditionally `'missing'`), as a
single accumulator update on the (total, missing) pair. -/
def accAdd (m : List (String × (Nat × Nat))) (k : String) (d : Nat × Nat) :
    List (String × (Nat × Nat)) :=
  let cur := (dictFind m k).getD (0, 0)
  dictSet m k (cur.1 + d.1, cur.2 + d.2)

/-- CCOR accumulation for one app: the source performs this inside the
`len(channels) == 3` branch of the per-category loop. -/
def ccorAppStep (m : List (String × (Nat × Nat))) (a : ParsedApp) :
    List (String × (Nat × Nat)) :=
  (permissionChannels a.triples).foldl
    (fun m e =>
      if e.2.length == 3 then
        if dictContains e.2 "渠道一" && dictContains e.2 "渠道二" then
          accAdd m a.genre
            (1, if dictFind e.2 "渠道一" == some 1 && dictFind e.2 "渠道二" == some 0
                then 1 else 0)
        else m
      else m)
    m

/-- `ccor_data` after all apps. -/
def ccorData (apps : List ParsedApp) : List (String × (Nat × Nat)) :=
  apps.foldl ccorAppStep []

/-- CCOR bucket reads (defaultdict semantics: an untouched genre reads (0,0)). -/
def ccorTotal (apps : List ParsedApp) (g : String) : Nat :=
  ((dictFind (ccorData apps) g).getD (0, 0)).1

def ccorMissing (apps : List ParsedApp) (g : String) : Nat :=
  ((dictFind (ccorData apps) g).getD (0, 0)).2

/-- `ccor_result[genre] = missing / total * 100 if total > 0 else 0`. -/
def ccorResult (apps : List ParsedApp) (g : String) : ℚ :=
  if ccorTotal apps g > 0 then
    (ccorMissing apps g : ℚ) / (ccorTotal apps g : ℚ) * 100
  else 0

/-- CCCR accumulation for one app (also inside the `len(channels) == 3`
branch): channel-1 and channel-3 in direct (1,0)/(0,1) disagreement. -/
def cccrAppStep (m : List (String × (Nat × Nat))) (a : ParsedApp) :
    List (String × (Nat × Nat)) :=
  (permissionChannels a.triples).foldl
    (fun m e =>
      if e.2.length == 3 then
        if dictContains e.2 "渠道一" && dictContains e.2 "渠道三" then
          accAdd m a.genre
            (1, if (dictFind e.2 "渠道一" == some 1 && dictFind e.2 "渠道三" == some 0)
                  || (dictFind e.2 "渠道一" == some 0 && dictFind e.2 "渠道三" == some 1)
                then 1 else 0)
        else m
      else m)
    m

def cccrData (apps : List ParsedApp) : List (String × (Nat × Nat)) :=
  apps.foldl cccrAppStep []

def cccrTotal (apps : List ParsedApp) (g : String) : Nat :=
  ((dictFind (cccrData apps) g).getD (0, 0)).1

def cccrConflict (apps : List ParsedApp) (g : String) : Nat :=
  ((dictFind (cccrData apps) g).getD (0, 0)).2

def cccrResult (apps : List ParsedApp) (g : String) : ℚ :=
  if cccrTotal apps g > 0 then
    (cccrConflict apps g : ℚ) / (cccrTotal apps g : ℚ) * 100
  else 0

/-- `genre_occ[genre]['count'] += app_total; ['consistent'] += app_consistent`
(only for apps with `app_total > 0`). -/
def genreOccData (apps : List ParsedApp) : List (String × (Nat × Nat)) :=
  apps.foldl
    (fun m a => if appTotal a > 0 then accAdd m a.genre (appTotal a, appConsistent a) else m)
    []

def genreOccCount (apps : List ParsedApp) (g : String) : Nat :=
  ((dictFind (genreOccData apps) g).getD (0, 0)).1

def genreOccConsistent (apps : List ParsedApp) (g : String) : Nat :=
  ((dictFind (genreOccData apps) g).getD (0, 0)).2

def genreOccResult (apps : List ParsedApp) (g : String) : ℚ :=
  if genreOccCount apps g > 0 then
    (genreOccConsistent apps g : ℚ) / (genreOccCount apps g : ℚ) * 100
  else 0

/-- `len(permission_channels)` as left over after the per-app loop: the
grouping of the *last* app in the file (for an empty app list the Python
variable is undefined, but then the trend loop below runs zero times and
never reads it). -/
def lastLen (apps : List ParsedApp) : Nat :=
  (permissionChannels (((apps.getLast?).map (·.triples)).getD [])).length

/-- One iteration of the overall-OCC-trend loop.  `int(...)` truncates toward
zero; its argument `app_occ / 100 * L` is nonnegative, so this is the floor. -/
def trendStep (L : Nat) (st : ℚ × ℚ × List ℚ) (occ : ℚ) : ℚ × ℚ × List ℚ :=
  let c : ℚ := ((⌊occ / 100 * (L : ℚ)⌋ : ℤ) : ℚ)
  let cc := st.1 + c
  let ct := st.2.1 + (L : ℚ)
  (cc, ct, st.2.2 ++ [if ct > 0 then cc / ct * 100 else 0])

/-- `overall_occ_trend`. -/
def overallOccTrend (apps : List ParsedApp) : List ℚ :=
  ((appsOcc apps).foldl (trendStep (lastLen apps)) (0, 0, [])).2.2

/-! ## permission_visual_analysis.py -/

/-- `ANDROID_DANGEROUS_PERMISSIONS` (all nine categories map to `True`). -/
def ANDROID_DANGEROUS_PERMISSIONS : List (String × Bool) :=
  [("Location", true), ("Contacts", true), ("Phone", true), ("SMS", true),
   ("Storage", true), ("Camera", true), ("Microphone", true), ("Calendar", true),
   ("Sensors", true)]

/-- `total_collected` in `analyze_dangerous_permissions`: channel-1 presence
assertions across all apps. -/
def totalCollected (apps : List ParsedApp) : Nat :=
  apps.foldl
    (fun n a =>
      n + (a.triples.filter (fun t => t.channel == "渠道一" && t.status == 1)).length)
    0

/-- `total_dangerous`: those whose category the dangerous table marks `True`
(`ANDROID_DANGEROUS_PERMISSIONS.get(permission, False)`). -/
def totalDangerous (apps : List ParsedApp) : Nat :=
  apps.foldl
    (fun n a =>
      n + (a.triples.filter (fun t => t.channel == "渠道一" && t.status == 1
            && (dictFind ANDROID_DANGEROUS_PERMISSIONS t.permission).getD false)).length)
    0

/-- `dangerous_ratio = (total_dangerous / total_collected) * 100 if
total_collected > 0 else 0`. -/
def dangerousRatioVal (apps : List ParsedApp) : ℚ :=
  if totalCollected apps > 0 then
    (totalDangerous apps : ℚ) / (totalCollected apps : ℚ) * 100
  else 0

/-- `total_permissions` in `analyze_channel_consistency`: one per grouping
entry (distinct category) of each app — unlike `totalPermissionsMetrics`. -/
def ccTotalPermissions (apps : List ParsedApp) : Nat :=
  apps.foldl (fun n a => n + appTotal a) 0

/-- `triple_consistent_count` in `analyze_channel_consistency` (the grouping
and the consistency test are verbatim copies of the `calculate_metrics`
ones). -/
def tripleConsistentCount (apps : List ParsedApp) : Nat :=
  apps.foldl (fun n a => n + appConsistent a) 0

/-- `triple_consistency_ratio`. -/
def tripleConsistencyRatioVal (apps : List ParsedApp) : ℚ :=
  if ccTotalPermissions apps > 0 then
    (tripleConsistentCount apps : ℚ) / (ccTotalPermissions apps : ℚ) * 100
  else 0

/-- `genre_apps = defaultdict(list)` grouping of apps by genre, in first-seen
order. -/
def genreApps (apps : List ParsedApp) : List (String × List ParsedApp) :=
  apps.foldl (fun m a => dictSet m a.genre ((dictFind m a.genre).getD [] ++ [a])) []

/-- The set of categories an app ever asserts present (status 1) on
channel-1 (`permissions` in `prepare_genre_comparison_data`). -/
def collectedSet (a : ParsedApp) : Finset String :=
  a.triples.foldl
    (fun s t => if t.channel == "渠道一" && t.status == 1 then insert t.permission s else s)
    ∅

/-- `app_permissions`: keyed by the app *display name* — a later app with the
same name overwrites an earlier one's set. -/
def appPermissionsMap (gapps : List ParsedApp) : List (String × Finset String) :=
  gapps.foldl (fun m a => dictSet m a.app_name (collectedSet a)) []

/-- One output record of `prepare_genre_comparison_data`. -/
structure GenreComparison where
  genre : String
  app_count : Nat
  common_count : Nat
  total_permissions : Nat
  common_ratio : ℚ
deriving DecidableEq, Repr

/-- The per-genre body of `prepare_genre_comparison_data`:
`all_permissions = set.union(*values) if app_permissions else set()`,
`common = set.intersection(*values) if len(app_permissions) > 1 else
all_permissions`, ratio guarded by `if all_permissions else 0`. -/
def genreComparisonEntry (g : String) (gapps : List ParsedApp) : GenreComparison :=
  let ap := appPermissionsMap gapps
  let vals := ap.map (·.2)
  let allPerms : Finset String :=
    match vals with
    | [] => ∅
    | v :: vs => vs.foldl (· ∪ ·) v
  let common : Finset String :=
    if ap.length > 1 then
      match vals with
      | [] => ∅
      | v :: vs => vs.foldl (· ∩ ·) v
    else allPerms
  { genre := g, app_count := gapps.length, common_count := common.card,
    total_permissions := allPerms.card,
    common_ratio :=
      if allPerms ≠ ∅ then (common.card : ℚ) / (allPerms.card : ℚ) * 100 else 0 }

/-- `prepare_genre_comparison_data`: genres with fewer than 5 apps are
skipped (`continue`). -/
def prepareGenreComparisonData (apps : List ParsedApp) : List GenreComparison :=
  ((genreApps apps).filter (fun p => 5 ≤ p.2.length)).map
    (fun p => genreComparisonEntry p.1 p.2)

/-! ## Claim-side definitions and concrete inputs -/

/-- Claim-side definition (C3's wording): the CCOR bucket is incremented for
every category whose per-app grouping has entries for both channel-1 and
channel-2 (no requirement on channel-3). -/
def specC3Total (apps : List ParsedApp) (g : String) : Nat :=
  (apps.map (fun a =>
    if a.genre = g then
      ((permissionChannels a.triples).filter (fun e =>
        dictContains e.2 "渠道一" && dictContains e.2 "渠道二")).length
    else 0)).sum

/-- Claim-side definition (C3's wording): missing-count increments exactly
when channel-1's status is 1 and channel-2's is 0 (among the above). -/
def specC3Missing (apps : List ParsedApp) (g : String) : Nat :=
  (apps.map (fun a =>
    if a.genre = g then
      ((permissionChannels a.triples).filter (fun e =>
        dictContains e.2 "渠道一" && dictContains e.2 "渠道二"
          && dictFind e.2 "渠道一" == some 1 && dictFind e.2 "渠道二" == some 0)).length
    else 0)).sum

/-- One app, genre G, whose Location row has channel-1 and channel-2 entries
but no channel-3 entry. -/
def c3Apps : List ParsedApp :=
  [⟨"A", "1", "G", [⟨"渠道一", "Location", 1⟩, ⟨"渠道二", "Location", 0⟩]⟩]

/-- Claim-side definition (C9's wording): 100 × |intersection| / |union| of
the per-app channel-1 presence sets across the genre's apps (one set per
app, not per app name). -/
def specC9Ratio (gapps : List ParsedApp) : ℚ :=
  match gapps.map collectedSet with
  | [] => 0
  | v :: vs => 100 * ((vs.foldl (· ∩ ·) v).card : ℚ) / ((vs.foldl (· ∪ ·) v).card : ℚ)

/-- Five apps of genre G; the first two share the display name "X", so the
name-keyed `app_permissions` dict drops the first app's {Location} set. -/
def c9Apps : List ParsedApp :=
  [⟨"X", "1", "G", [⟨"渠道一", "Location", 1⟩]⟩,
   ⟨"X", "2", "G", [⟨"渠道一", "Camera", 1⟩]⟩,
   ⟨"B", "3", "G", [⟨"渠道一", "Camera", 1⟩]⟩,
   ⟨"C", "4", "G", [⟨"渠道一", "Camera", 1⟩]⟩,
   ⟨"D", "5", "G", [⟨"渠道一", "Camera", 1⟩]⟩]

/-- Claim-side definition (C5's wording): a category counts as consistent
when all three *named* channels 渠道一/渠道二/渠道三 have an entry and their
statuses are equal and not -1. -/
def specC5Consistent (a : ParsedApp) : Nat :=
  ((permissionChannels a.triples).filter (fun e =>
    dictContains e.2 "渠道一" && dictContains e.2 "渠道二" && dictContains e.2 "渠道三"
      && dictFind e.2 "渠道一" == dictFind e.2 "渠道二"
      && dictFind e.2 "渠道二" == dictFind e.2 "渠道三"
      && !(dictFind e.2 "渠道一" == some (-1)))).length

/-- Claim-side definition (C5's wording): 100 × consistent categories over
distinct categories appearing in the app's triples. -/
def specC5Occ (a : ParsedApp) : ℚ :=
  100 * (specC5Consistent a : ℚ) / ((a.triples.map (fun t => t.permission)).dedup.length : ℚ)

/-- An app whose Camera grouping has three channel entries, but for channels
渠道一, 渠道二 and 渠道四 — channel 渠道三 has no entry. -/
def c5App : ParsedApp :=
  ⟨"A", "1", "G", [⟨"渠道一", "Camera", 1⟩, ⟨"渠道二", "Camera", 1⟩, ⟨"渠道四", "Camera", 1⟩]⟩

/-- Spec-style restatement of the per-app ICA count: scanning the triples in
order, a triple scores a point exactly when some earlier triple recorded the
same (permission, channel) slot and the *last* such recording has a different
status. -/
def icaSpecAux (pre : List PTriple) : List PTriple → Nat
  | [] => 0
  | t :: ts =>
    (if ((pre.filter (fun u => u.permission == t.permission
            && u.channel == t.channel)).getLast?).any (fun u => u.status != t.status)
     then 1 else 0)
      + icaSpecAux (pre ++ [t]) ts

def icaSpecApp (ts : List PTriple) : Nat := icaSpecAux [] ts

/-- Claim-side definition (C4's wording): one ICA count per triple whose
status is -1. -/
def specC4Total (apps : List ParsedApp) : Nat :=
  (apps.map (fun a => (a.triples.filter (fun t => t.status == -1)).length)).sum

/-- One app with a single triple whose status is the generator's internal
contradiction marker -1. -/
def c4Apps : List ParsedApp :=
  [⟨"A", "1", "G", [⟨"渠道一", "Phone", -1⟩]⟩]

/-- Claim-side definition (C2's wording): the cumulative running average of
the first i+1 app-level OCC percentages. -/
def specC2RunningAvg (occs : List ℚ) (i : Nat) : ℚ :=
  ((occs.take (i + 1)).sum) / ((i : ℚ) + 1)

/-- Two parsed apps: the first has three categories with one consistent
(OCC 100/3), the second (and last) has a single consistent category
(OCC 100), leaving `len(permission_channels) = 1` after the loop. -/
def c2Apps : List ParsedApp :=
  [⟨"A", "1", "G",
    [⟨"渠道一", "Location", 1⟩, ⟨"渠道二", "Location", 1⟩, ⟨"渠道三", "Location", 1⟩,
     ⟨"渠道一", "Camera", 1⟩, ⟨"渠道一", "SMS", 1⟩]⟩,
   ⟨"B", "2", "G",
    [⟨"渠道一", "Location", 1⟩, ⟨"渠道二", "Location", 1⟩, ⟨"渠道三", "Location", 1⟩]⟩]

/-! ## permission_triple_generator.py : save_results -/

/-- `app_key = (app_info['app_name'], app_info['app_id'], app_info['genre'])`. -/
def appKeyOf (r : GenTriple) : String × String × String :=
  (r.info.app_name, r.info.app_id, r.info.genre)

/-- One iteration of the grouping loop of `save_results`: append the
(channel, permission, status) part under the app key, creating the key on
first sight. -/
def groupStep (acc : List ((String × String × String) × List (String × String × Int)))
    (r : GenTriple) :
    List ((String × String × String) × List (String × String × Int)) :=
  if acc.any (fun p => p.1 == appKeyOf r) then
    acc.map (fun p =>
      if p.1 == appKeyOf r then (p.1, p.2 ++ [(r.channel, r.permission, r.status)]) else p)
  else acc ++ [(appKeyOf r, [(r.channel, r.permission, r.status)])]

/-- `app_results` after the grouping loop. -/
def groupResults (results : List GenTriple) :
    List ((String × String × String) × List (String × String × Int)) :=
  results.foldl groupStep []

/-- The separator line written between apps (50 dashes). -/
def separatorLine : String := "--------------------------------------------------"

/-- The lines written for one app block. -/
def blockLines (key : String × String × String) (ts : List (String × String × Int)) :
    List String :=
  ("应用名称: " ++ key.1) :: ("应用ID: " ++ key.2.1) :: ("应用类别: " ++ key.2.2)
    :: "权限三元组:"
    :: ts.map (fun t => t.1 ++ "," ++ t.2.1 ++ "," ++ toString t.2.2)

/-- The block lines of all apps with the separator between consecutive apps;
the source writes the separator `if idx < len(app_results) - 1`, i.e. after
every block except the last, which is exactly this recursion. -/
def saveBlocks : List ((String × String × String) × List (String × String × Int)) →
    List String
  | [] => []
  | [g] => blockLines g.1 g.2
  | g :: g' :: rest => blockLines g.1 g.2 ++ separatorLine :: saveBlocks (g' :: rest)

/-- All lines written by `save_results`: the CSV header, then the blocks. -/
def saveLines (results : List GenTriple) : List String :=
  "应用名称,应用ID,应用类别,渠道,权限,是否存在该权限" :: saveBlocks (groupResults results)

/-- The file contents: every `f.write` ends its line with `"\n"`. -/
def joinLines (lines : List String) : String :=
  String.mk (lines.flatMap (fun l => l.toList ++ ['\n']))

/-- `save_results` minus the I/O: the text written to the output file. -/
def saveResults (results : List GenTriple) : String :=
  joinLines (saveLines results)

/-- Hypothesis bundle for the round-trip theorem: a name/id/genre string
survives the writer's line format and the reader's strip/replace when it is
whitespace-trimmed, newline-free, and does not itself contain the marker of
its own line. -/
def okStr (s marker : String) : Prop :=
  s.toList.dropWhile Char.isWhitespace = s.toList
    ∧ s.toList.reverse.dropWhile Char.isWhitespace = s.toList.reverse
    ∧ strContainsChar s '\n' = false
    ∧ strContainsSub s marker = false

instance (s marker : String) : Decidable (okStr s marker) :=
  inferInstanceAs (Decidable (_ ∧ _ ∧ _ ∧ _))

/-- The final "save the last app" flush of `load_triple_data`, shared by the
round-trip development (`parseLines` is definitionally
`parseFlush ∘ foldl parseLine initParseState`). -/
def parseFlush (st : ParseState) : List ParsedApp :=
  if st.cur.truthy && !st.triples.isEmpty then st.apps ++ [st.cur.finalize st.triples]
  else st.apps

/-- The `PTriple` the reader recovers from one written triple line. -/
def ptripleOf (t : String × String × Int) : PTriple := ⟨t.1, t.2.1, t.2.2⟩

/-- Well-formedness of one written (channel, permission, status) part: the
channel and permission are among the generator's fixed names and the status
is one of the three values the generator can emit. -/
def okTriple (t : String × String × Int) : Prop :=
  (∃ ch : Chan, t.1 = ch.chanName) ∧ (∃ c : Cat, t.2.1 = c.name)
    ∧ (t.2.2 = -1 ∨ t.2.2 = 0 ∨ t.2.2 = 1)

/-- Well-formedness of one grouped app block of `save_results`: the three key
fields survive their lines and the block holds at least one well-formed
triple. -/
def okGroup (g : (String × String × String) × List (String × String × Int)) : Prop :=
  okStr g.1.1 "应用名称:" ∧ okStr g.1.2.1 "应用ID:" ∧ okStr g.1.2.2 "应用类别:"
    ∧ g.2 ≠ [] ∧ ∀ t ∈ g.2, okTriple t

/-- The parsed app a well-formed written block reads back to. -/
def groupParsed (g : (String × String × String) × List (String × String × Int)) :
    ParsedApp :=
  ⟨g.1.1, g.1.2.1, g.1.2.2, g.2.map ptripleOf⟩

/-- The `save_results` grouping key of an app record's generated triples. -/
def genKeyOf (a : AppJson) : String × String × String :=
  ((appInfoOf a).app_name, (appInfoOf a).app_id, (appInfoOf a).genre)

/-- The (channel, permission, status) parts of an app record's generated
triples, in generation order. -/
def genTriplesOf (a : AppJson) : List (String × String × Int) :=
  (analyzePermissions a).map (fun r => (r.channel, r.permission, r.status))

/-- Two app records with identical (default) display name, id and genre:
`save_results` groups them under one key and writes a single merged block. -/
def c7Apps : List AppJson := [{ name := some "A" }, { name := some "A" }]

/-- A well-formed single-app database for the round-trip witness. -/
def c7wApp : AppJson :=
  { name := some "A", _id := some "1", genre := some "G",
    data_collected := some (.flist ["IMEI", "Camera"]),
    permission := some (.fscalar "Location"),
    security_practices := none }

/-! ## Theorems -/

/-! Basic facts about the category table and the item mapper. -/

lemma countP_add_countP_not (p : α → Bool) (l : List α) :
    l.countP p + l.countP (fun a => !p a) = l.length := by
  induction l with
  | nil => rfl
  | cons a l ih => by_cases h : p a <;> simp [List.countP_cons, h, ← ih] <;> omega

lemma PC_nodup : PERMISSION_CATEGORIES.Nodup := by decide

lemma PC_mem : ∀ cat : Cat, cat ∈ PERMISSION_CATEGORIES := by decide

lemma PC_length : PERMISSION_CATEGORIES.length = 9 := by decide

lemma cat_name_inj : ∀ c c' : Cat, c.name = c'.name → c = c' := by decide

lemma reverseMappingCats_nodup (item : String) : (reverseMappingCats item).Nodup := by
  have h : List.Sublist ((PERMISSION_MAPPING.filter (fun p => p.2.contains item)).map (·.1))
      (PERMISSION_MAPPING.map (·.1)) := (List.filter_sublist _).map _
  exact h.nodup (by decide)

lemma mapSingleItem_nodup (item : String) : (mapSingleItem item).Nodup := by
  unfold mapSingleItem
  split_ifs with h1 h2 h3
  · exact reverseMappingCats_nodup item
  · simp
  · simp
  · simp

lemma mapSingleItem_mem_PC (item : String) :
    ∀ c ∈ mapSingleItem item, c ∈ PERMISSION_CATEGORIES := by
  unfold mapSingleItem
  split_ifs with h1 h2 h3 <;> intro c hc
  · rcases List.mem_map.1 ((by exact hc) :
        c ∈ (PERMISSION_MAPPING.filter (fun p => p.2.contains item)).map (·.1)) with ⟨p, hp, rfl⟩
    exact List.mem_map_of_mem _ (List.mem_of_mem_filter hp)
  · simp at hc
  · simp at hc; subst hc; decide
  · simp at hc

lemma countP_name_PC : ∀ cat : Cat,
    PERMISSION_CATEGORIES.countP (fun c => c.name == cat.name) = 1 := by decide

/-- For duplicate-free `cats ⊆ PERMISSION_CATEGORIES`, counting members of
`cats` inside `PERMISSION_CATEGORIES` recovers `cats.length`. -/
lemma countP_contains_PC (cats : List Cat) (hnd : cats.Nodup)
    (hsub : ∀ c ∈ cats, c ∈ PERMISSION_CATEGORIES) :
    PERMISSION_CATEGORIES.countP (fun c => cats.contains c) = cats.length := by
  rw [List.countP_eq_length_filter]
  refine List.Perm.length_eq ?_
  refine (List.perm_ext_iff_of_nodup (List.Nodup.filter _ PC_nodup) hnd).2 ?_
  intro c
  simp only [List.mem_filter, List.elem_eq_mem, decide_eq_true_eq]
  exact ⟨fun h => h.2, fun h => ⟨hsub c h, h⟩⟩

/-! Structure of the generator output. -/

lemma analyzeChannel_channel (info : AppInfo) (n : String) (f : Option FieldVal) :
    ∀ t ∈ analyzeChannel info n f, t.channel = n := by
  intro t ht
  match f with
  | none =>
    rcases List.mem_map.1 ht with ⟨c, _, rfl⟩; rfl
  | some (.flist items) =>
    rcases List.mem_map.1 ht with ⟨c, _, rfl⟩
    by_cases hc : (listChannelState items).2 c <;> simp [hc]
  | some (.fscalar v) =>
    rcases List.mem_append.1 ht with h | h <;>
      rcases List.mem_map.1 h with ⟨c, _, rfl⟩ <;> rfl

lemma analyzeChannel_countP_perm (info : AppInfo) (n : String) (f : Option FieldVal)
    (cat : Cat) :
    (analyzeChannel info n f).countP (fun t => t.permission == cat.name) = 1 := by
  match f with
  | none =>
    simp only [analyzeChannel, List.countP_map]
    exact countP_name_PC cat
  | some (.flist items) =>
    simp only [analyzeChannel, List.countP_map]
    rw [List.countP_congr (q := fun c => c.name == cat.name)]
    · exact countP_name_PC cat
    · intro c _
      by_cases hc : (listChannelState items).2 c <;> simp [hc]
  | some (.fscalar v) =>
    have hnd := mapSingleItem_nodup v
    simp only [analyzeChannel, List.countP_append, List.countP_map]
    have e1 : ((fun t : GenTriple => t.permission == cat.name)
          ∘ fun c : Cat => (⟨info, n, c.name, 1⟩ : GenTriple))
        = fun c : Cat => c.name == cat.name := rfl
    have e2 : ((fun t : GenTriple => t.permission == cat.name)
          ∘ fun c : Cat => (⟨info, n, c.name, 0⟩ : GenTriple))
        = fun c : Cat => c.name == cat.name := rfl
    rw [e1, e2]
    have hcongr : ∀ l : List Cat,
        l.countP (fun c => c.name == cat.name) = l.countP (· == cat) := by
      intro l
      refine List.countP_congr (fun c _ => ?_)
      constructor
      · intro h
        have hn : c.name = cat.name := by simpa using h
        simp [cat_name_inj c cat hn]
      · intro h
        have hc : c = cat := by simpa using h
        simp [hc]
    by_cases hmem : cat ∈ mapSingleItem v
    · have h1 : (mapSingleItem v).countP (fun c => c.name == cat.name) = 1 := by
        rw [hcongr, ← List.count, List.count_eq_one_of_mem hnd hmem]
      have h2 : (PERMISSION_CATEGORIES.filter
          (fun c => !(mapSingleItem v).contains c)).countP (fun c => c.name == cat.name)
          = 0 := by
        rw [List.countP_eq_zero]
        intro c hc hcontra
        have hcf := List.mem_filter.1 hc
        have hn : c.name = cat.name := by simpa using hcontra
        have hc2 : c = cat := cat_name_inj c cat hn
        subst hc2
        have := hcf.2
        simp [hmem] at this
      omega
    · have h1 : (mapSingleItem v).countP (fun c => c.name == cat.name) = 0 := by
        rw [List.countP_eq_zero]
        intro c hc hcontra
        have hn : c.name = cat.name := by simpa using hcontra
        have hc2 : c = cat := cat_name_inj c cat hn
        subst hc2; exact hmem hc
      have h2 : (PERMISSION_CATEGORIES.filter
          (fun c => !(mapSingleItem v).contains c)).countP (fun c => c.name == cat.name)
          = 1 := by
        rw [hcongr, List.countP_eq_length_filter, List.filter_filter,
          ← List.countP_eq_length_filter]
        rw [List.countP_congr (q := (· == cat)) (fun c _ => by
          constructor
          · intro h
            have := h
            simp only [Bool.and_eq_true, beq_iff_eq] at this
            simp [this.1]
          · intro h
            have hc : c = cat := by simpa using h
            subst hc
            simp [hmem])]
        rw [← List.count, List.count_eq_one_of_mem PC_nodup (PC_mem cat)]
      omega

lemma analyzeChannel_length (info : AppInfo) (n : String) (f : Option FieldVal) :
    (analyzeChannel info n f).length = 9 := by
  match f with
  | none => simp [analyzeChannel, PC_length]
  | some (.flist items) => simp [analyzeChannel, PC_length]
  | some (.fscalar v) =>
    simp only [analyzeChannel, List.length_append, List.length_map]
    have h1 : (PERMISSION_CATEGORIES.filter (fun c => !(mapSingleItem v).contains c)).length
        = PERMISSION_CATEGORIES.countP (fun c => !(mapSingleItem v).contains c) :=
      (List.countP_eq_length_filter _ _).symm
    have h2 := countP_add_countP_not (fun c => (mapSingleItem v).contains c)
        PERMISSION_CATEGORIES
    have h3 := countP_contains_PC (mapSingleItem v) (mapSingleItem_nodup v)
        (mapSingleItem_mem_PC v)
    rw [h1]
    rw [PC_length] at h2
    omega

lemma countP_chanperm_eq (info : AppInfo) (n : String) (f : Option FieldVal) (cat : Cat) :
    (analyzeChannel info n f).countP
      (fun t => t.channel == n && t.permission == cat.name) = 1 := by
  rw [List.countP_congr (q := fun t => t.permission == cat.name) (fun t ht => by
    have := analyzeChannel_channel info n f t ht
    simp [this])]
  exact analyzeChannel_countP_perm info n f cat

lemma countP_chanperm_ne (info : AppInfo) (n n' : String) (f : Option FieldVal) (cat : Cat)
    (h : n ≠ n') :
    (analyzeChannel info n f).countP
      (fun t => t.channel == n' && t.permission == cat.name) = 0 := by
  rw [List.countP_eq_zero]
  intro t ht
  have := analyzeChannel_channel info n f t ht
  simp [this, h]

lemma chanStep_skip (cat : Cat) :
    ∀ (cs : List Cat) (st : (Cat → Int) × (Cat → Bool)), cat ∉ cs →
      ((cs.foldl chanStep st).1 cat = st.1 cat
        ∧ (cs.foldl chanStep st).2 cat = st.2 cat) := by
  intro cs
  induction cs with
  | nil => intro st _; exact ⟨rfl, rfl⟩
  | cons c cs ih =>
    intro st hmem
    have hc : cat ≠ c := fun h => hmem (h ▸ List.mem_cons_self c cs)
    have htail : cat ∉ cs := fun h => hmem (List.mem_cons_of_mem c h)
    simp only [List.foldl_cons]
    rcases ih (chanStep st c) htail with ⟨h1, h2⟩
    rw [h1, h2]
    unfold chanStep
    by_cases hz : st.1 c = 0 <;> by_cases hm : st.1 c = -1 <;> simp [hz, hm, hc]

lemma listChannelState_not_mem (items : List String) (cat : Cat)
    (h : ∀ it ∈ items, cat ∉ mapSingleItem it) :
    (listChannelState items).1 cat = 0 ∧ (listChannelState items).2 cat = false := by
  unfold listChannelState
  suffices H : ∀ (its : List String) (st : (Cat → Int) × (Cat → Bool)),
      (∀ it ∈ its, cat ∉ mapSingleItem it) → st.1 cat = 0 → st.2 cat = false →
      ((its.foldl chanItemStep st).1 cat = 0
        ∧ (its.foldl chanItemStep st).2 cat = false) by
    exact H items _ h rfl rfl
  intro its
  induction its with
  | nil => intro st _ h0 hf; exact ⟨h0, hf⟩
  | cons it its ih =>
    intro st hall h0 hf
    simp only [List.foldl_cons]
    rcases chanStep_skip cat (mapSingleItem it) st
        (hall it (List.mem_cons_self it its)) with ⟨hs1, hs2⟩
    exact ih _ (fun x hx => hall x (List.mem_cons_of_mem it hx))
      ((by exact hs1 : (chanItemStep st it).1 cat = st.1 cat).trans h0)
      ((by exact hs2 : (chanItemStep st it).2 cat = st.2 cat).trans hf)

/-- C1 (code_bug evidence): on an app whose channel-1 field holds two raw
items that both map to "Phone" — `'App info and performance'` (the item the
mapper's own dead special-case treats as an absence context) and `'IMEI'` —
the generator emits status 1 for (渠道一, Phone) and emits no `-1` triple at
all: the `has_conflict` machinery of `analyze_permissions` is unreachable
because `permission_status` values only ever move from 0 to 1. -/
theorem c1_internal_contradiction_never_emitted :
    ((analyzePermissions c1App).filter (fun t => t.status == -1)) = []
    ∧ (⟨⟨"A", "1", "G"⟩, "渠道一", "Phone", 1⟩ : GenTriple) ∈ analyzePermissions c1App := by
  decide

/-- C6: for every app record, every channel and every one of the nine
categories, `analyze_permissions` emits exactly one status entry for that
(channel, category) pair, 27 triples in total; and for a list-valued field
none of whose raw items maps to the category, the emitted status for that
(channel, category) is the default 0. -/
theorem c6_exactly_one_status_per_channel_category (a : AppJson) (ch : Chan) (cat : Cat) :
    ((analyzePermissions a).filter
        (fun t => t.channel == ch.chanName && t.permission == cat.name)).length = 1
    ∧ (analyzePermissions a).length = 27
    ∧ (∀ items, a.channelField ch = some (.flist items) →
        (∀ it ∈ items, cat ∉ mapSingleItem it) →
        (⟨appInfoOf a, ch.chanName, cat.name, 0⟩ : GenTriple) ∈ analyzePermissions a) := by
  refine ⟨?_, ?_, ?_⟩
  · rw [← List.countP_eq_length_filter]
    show (analyzeChannel (appInfoOf a) "渠道一" a.data_collected
        ++ analyzeChannel (appInfoOf a) "渠道二" a.permission
        ++ analyzeChannel (appInfoOf a) "渠道三" a.security_practices).countP _ = 1
    rw [List.countP_append, List.countP_append]
    cases ch
    · simp only [Chan.chanName]
      rw [countP_chanperm_eq, countP_chanperm_ne _ _ _ _ _ (by decide),
        countP_chanperm_ne _ _ _ _ _ (by decide)]
    · simp only [Chan.chanName]
      rw [countP_chanperm_ne _ _ _ _ _ (by decide), countP_chanperm_eq,
        countP_chanperm_ne _ _ _ _ _ (by decide)]
    · simp only [Chan.chanName]
      rw [countP_chanperm_ne _ _ _ _ _ (by decide),
        countP_chanperm_ne _ _ _ _ _ (by decide), countP_chanperm_eq]
  · show (analyzeChannel (appInfoOf a) "渠道一" a.data_collected
        ++ analyzeChannel (appInfoOf a) "渠道二" a.permission
        ++ analyzeChannel (appInfoOf a) "渠道三" a.security_practices).length = 27
    simp [List.length_append, analyzeChannel_length]
  · intro items hf hno
    rcases listChannelState_not_mem items cat hno with ⟨h0, hcf⟩
    have hmem : (⟨appInfoOf a, ch.chanName, cat.name, 0⟩ : GenTriple)
        ∈ analyzeChannel (appInfoOf a) ch.chanName (some (.flist items)) := by
      simp only [analyzeChannel]
      refine List.mem_map.2 ⟨cat, PC_mem cat, ?_⟩
      rw [hcf]
      simp [h0]
    show _ ∈ analyzeChannel (appInfoOf a) "渠道一" a.data_collected
        ++ analyzeChannel (appInfoOf a) "渠道二" a.permission
        ++ analyzeChannel (appInfoOf a) "渠道三" a.security_practices
    cases ch
    · have hfc : a.data_collected = some (.flist items) := hf
      rw [hfc]
      exact List.mem_append_left _ (List.mem_append_left _ hmem)
    · have hfc : a.permission = some (.flist items) := hf
      rw [hfc]
      exact List.mem_append_left _ (List.mem_append_right _ hmem)
    · have hfc : a.security_practices = some (.flist items) := hf
      rw [hfc]
      exact List.mem_append_right _ hmem

/-- C10: both triple-file readers drop the first line of the file whenever it
contains a comma, treating it as the optional CSV header; such a first line
is discarded before parsing — the loop only ever sees the remaining lines. -/
theorem c10_first_comma_line_dropped (file l₀ : String) (rest : List String)
    (hsplit : strSplitOnChar file '\n' = l₀ :: rest)
    (hcomma : strContainsChar l₀ ',' = true) :
    loadTripleData file = parseLines rest ∧ loadTripleDataVA file = parseLines rest := by
  unfold loadTripleData loadTripleDataVA
  rw [hsplit]
  simp [hcomma]

/-- Witness for C10: a header-less file whose first line is the 应用名称 line
of an app whose display name contains a comma; that line is silently dropped,
so the parsed app has an empty name. -/
theorem c10_witness :
    strSplitOnChar c10File '\n'
      = ["应用名称: Foo, Inc", "应用ID: 7", "应用类别: G", "渠道一,Location,1"]
    ∧ strContainsChar "应用名称: Foo, Inc" ',' = true
    ∧ loadTripleData c10File = [⟨"", "7", "G", [⟨"渠道一", "Location", 1⟩]⟩] := by
  refine ⟨by decide, by decide, ?_⟩
  rw [(c10_first_comma_line_dropped c10File "应用名称: Foo, Inc"
    ["应用ID: 7", "应用类别: G", "渠道一,Location,1"] (by decide) (by decide)).1]
  decide

/-! Association-list dictionary lemmas. -/

lemma dictFind_cons [BEq α] (p : α × β) (m : List (α × β)) (k : α) :
    dictFind (p :: m) k = if p.1 == k then some p.2 else dictFind m k := by
  unfold dictFind
  rw [List.find?_cons]
  by_cases h : p.1 == k <;> simp [h]

lemma dictFind_map_update_ne [BEq α] [LawfulBEq α] (m : List (α × β)) (k k' : α) (v : β)
    (h : ¬ k' = k) :
    dictFind (m.map (fun p => if p.1 == k then (k, v) else p)) k' = dictFind m k' := by
  induction m with
  | nil => rfl
  | cons p m ih =>
    simp only [List.map_cons]
    by_cases hp : p.1 == k
    · rw [if_pos hp, dictFind_cons, dictFind_cons,
        if_neg (by simpa using fun hc => h hc.symm), if_neg (by
          intro hc
          exact h (by rw [← eq_of_beq hc, eq_of_beq hp])), ih]
    · rw [if_neg hp, dictFind_cons, dictFind_cons]
      by_cases hpk : p.1 == k' <;> simp [hpk, ih]

lemma dictFind_append_single_ne [BEq α] [LawfulBEq α] (m : List (α × β)) (k k' : α) (v : β)
    (h : ¬ k' = k) :
    dictFind (m ++ [(k, v)]) k' = dictFind m k' := by
  induction m with
  | nil =>
    rw [List.nil_append, dictFind_cons, if_neg (by simpa using fun hc => h hc.symm)]
  | cons p m ih =>
    rw [List.cons_append, dictFind_cons, dictFind_cons]
    by_cases hp : p.1 == k' <;> simp [hp, ih]

lemma dictFind_dictSet_self [BEq α] [LawfulBEq α] (m : List (α × β)) (k : α) (v : β) :
    dictFind (dictSet m k v) k = some v := by
  unfold dictSet
  by_cases hany : m.any (fun p => p.1 == k)
  · simp only [if_pos hany]
    induction m with
    | nil => simp at hany
    | cons p m ih =>
      simp only [List.map_cons]
      by_cases hp : p.1 == k
      · rw [if_pos hp, dictFind_cons, if_pos (by simp)]
      · have hany' : m.any (fun p => p.1 == k) := by
          simp only [List.any_cons, hp, Bool.false_or] at hany
          exact hany
        rw [if_neg hp, dictFind_cons, if_neg hp]
        exact ih hany'
  · simp only [if_neg hany]
    induction m with
    | nil =>
      rw [List.nil_append, dictFind_cons, if_pos (by simp)]
    | cons p m ih =>
      have hp : ¬(p.1 == k) = true := by
        intro hc
        exact hany (by simp [List.any_cons, hc])
      have hany' : ¬ m.any (fun p => p.1 == k) = true := by
        intro hc
        exact hany (by simp [List.any_cons, hc])
      rw [List.cons_append, dictFind_cons, if_neg hp]
      exact ih hany'

lemma dictFind_dictSet_ne [BEq α] [LawfulBEq α] (m : List (α × β)) (k k' : α) (v : β)
    (h : ¬ k' = k) :
    dictFind (dictSet m k v) k' = dictFind m k' := by
  unfold dictSet
  by_cases hany : m.any (fun p => p.1 == k)
  · rw [if_pos hany, dictFind_map_update_ne m k k' v h]
  · rw [if_neg hany, dictFind_append_single_ne m k k' v h]

lemma dictFind_accAdd_self (m : List (String × (Nat × Nat))) (k : String) (d : Nat × Nat) :
    (dictFind (accAdd m k d) k).getD (0, 0)
      = (((dictFind m k).getD (0, 0)).1 + d.1, ((dictFind m k).getD (0, 0)).2 + d.2) := by
  simp [accAdd, dictFind_dictSet_self]

lemma dictFind_accAdd_ne (m : List (String × (Nat × Nat))) (k k' : String) (d : Nat × Nat)
    (h : ¬ k' = k) :
    dictFind (accAdd m k d) k' = dictFind m k' := by
  simp [accAdd, dictFind_dictSet_ne _ _ _ _ h]

/-- C8: every ratio whose bucket has a zero denominator yields 0: genre-level
OCC, CCOR, CCCR, the ICA ratio, the dangerous-permission ratio and the
triple-channel consistency ratio. -/
theorem c8_zero_denominator_yields_zero (apps : List ParsedApp) (g : String) :
    (ccorTotal apps g = 0 → ccorResult apps g = 0)
    ∧ (cccrTotal apps g = 0 → cccrResult apps g = 0)
    ∧ (genreOccCount apps g = 0 → genreOccResult apps g = 0)
    ∧ (totalPermissionsMetrics apps = 0 → icaRatioMetric apps = 0)
    ∧ (totalCollected apps = 0 → dangerousRatioVal apps = 0)
    ∧ (ccTotalPermissions apps = 0 → tripleConsistencyRatioVal apps = 0) := by
  refine ⟨fun h => ?_, fun h => ?_, fun h => ?_, fun h => ?_, fun h => ?_, fun h => ?_⟩ <;>
    simp [ccorResult, cccrResult, genreOccResult, icaRatioMetric, dangerousRatioVal,
      tripleConsistencyRatioVal, h]

/-- Witness for C8 at the empty app list, where every denominator is 0. -/
theorem c8_witness :
    (ccorTotal [] "G" = 0 ∧ ccorResult [] "G" = 0)
    ∧ (cccrTotal [] "G" = 0 ∧ cccrResult [] "G" = 0)
    ∧ (genreOccCount [] "G" = 0 ∧ genreOccResult [] "G" = 0)
    ∧ (totalPermissionsMetrics [] = 0 ∧ icaRatioMetric [] = 0)
    ∧ (totalCollected [] = 0 ∧ dangerousRatioVal [] = 0)
    ∧ (ccTotalPermissions [] = 0 ∧ tripleConsistencyRatioVal [] = 0) := by
  have h := c8_zero_denominator_yields_zero [] "G"
  exact ⟨⟨rfl, h.1 rfl⟩, ⟨rfl, h.2.1 rfl⟩, ⟨rfl, h.2.2.1 rfl⟩, ⟨rfl, h.2.2.2.1 rfl⟩,
    ⟨rfl, h.2.2.2.2.1 rfl⟩, ⟨rfl, h.2.2.2.2.2 rfl⟩⟩

/-! Genre-bucket accumulation lemmas (shared by CCOR and CCCR). -/

lemma sum_map_filter_ite (p q : σ → Bool) (l : List σ) :
    ((l.filter p).map (fun s => if q s then (1 : Nat) else 0)).sum
      = (l.filter (fun s => p s && q s)).length := by
  induction l with
  | nil => rfl
  | cons s l ih =>
    by_cases hp : p s <;> by_cases hq : q s <;>
      simp [List.filter_cons, hp, hq, ih, Nat.add_comm]

lemma sum_map_filter_one (p : σ → Bool) (l : List σ) :
    ((l.filter p).map (fun _ => (1 : Nat))).sum = (l.filter p).length := by
  simp

lemma bucket_foldl_condAccAdd (K : String) (P : σ → Bool) (δ : σ → Nat × Nat) :
    ∀ (l : List σ) (m : List (String × (Nat × Nat))) (g : String),
      (dictFind (l.foldl (fun m s => if P s then accAdd m K (δ s) else m) m) g).getD (0, 0)
        = if g = K then
            (((dictFind m g).getD (0, 0)).1 + ((l.filter P).map (fun s => (δ s).1)).sum,
             ((dictFind m g).getD (0, 0)).2 + ((l.filter P).map (fun s => (δ s).2)).sum)
          else (dictFind m g).getD (0, 0) := by
  intro l
  induction l with
  | nil =>
    intro m g
    by_cases hg : g = K <;> simp [hg]
  | cons s l ih =>
    intro m g
    simp only [List.foldl_cons]
    by_cases hP : P s
    · rw [if_pos hP, ih]
      by_cases hg : g = K
      · subst hg
        simp only [if_pos rfl, List.filter_cons, hP, dictFind_accAdd_self]
        simp [Nat.add_assoc]
      · simp only [if_neg hg, List.filter_cons, hP]
        rw [dictFind_accAdd_ne _ _ _ _ hg]
    · rw [if_neg hP, ih]
      by_cases hg : g = K <;> simp [hg, List.filter_cons, hP]

lemma ccorAppStep_eq_canonical (a : ParsedApp) (m : List (String × (Nat × Nat))) :
    ccorAppStep m a =
      (permissionChannels a.triples).foldl
        (fun m e =>
          if (e.2.length == 3 && (dictContains e.2 "渠道一" && dictContains e.2 "渠道二")) then
            accAdd m a.genre
              (1, if dictFind e.2 "渠道一" == some 1 && dictFind e.2 "渠道二" == some 0
                  then 1 else 0)
          else m)
        m := by
  unfold ccorAppStep
  congr 1
  funext m e
  by_cases h1 : e.2.length == 3 <;>
    by_cases h2 : dictContains e.2 "渠道一" && dictContains e.2 "渠道二" <;>
      simp [h1, h2]

lemma ccorAppStep_bucket (m : List (String × (Nat × Nat))) (a : ParsedApp) (g : String) :
    (dictFind (ccorAppStep m a) g).getD (0, 0)
      = if g = a.genre then
          (((dictFind m g).getD (0, 0)).1
              + ((permissionChannels a.triples).filter (fun e => e.2.length == 3
                  && (dictContains e.2 "渠道一" && dictContains e.2 "渠道二"))).length,
           ((dictFind m g).getD (0, 0)).2
              + ((permissionChannels a.triples).filter (fun e => (e.2.length == 3
                  && (dictContains e.2 "渠道一" && dictContains e.2 "渠道二"))
                  && (dictFind e.2 "渠道一" == some 1
                      && dictFind e.2 "渠道二" == some 0))).length)
        else (dictFind m g).getD (0, 0) := by
  rw [ccorAppStep_eq_canonical a m, bucket_foldl_condAccAdd]
  rw [sum_map_filter_one, sum_map_filter_ite]

lemma ccorData_bucket (apps : List ParsedApp) :
    ∀ (m : List (String × (Nat × Nat))) (g : String),
      (dictFind (apps.foldl ccorAppStep m) g).getD (0, 0)
        = (((dictFind m g).getD (0, 0)).1
            + (apps.map (fun a => if a.genre = g then
                ((permissionChannels a.triples).filter (fun e => e.2.length == 3
                  && (dictContains e.2 "渠道一" && dictContains e.2 "渠道二"))).length
                else 0)).sum,
           ((dictFind m g).getD (0, 0)).2
            + (apps.map (fun a => if a.genre = g then
                ((permissionChannels a.triples).filter (fun e => (e.2.length == 3
                  && (dictContains e.2 "渠道一" && dictContains e.2 "渠道二"))
                  && (dictFind e.2 "渠道一" == some 1
                      && dictFind e.2 "渠道二" == some 0))).length
                else 0)).sum) := by
  induction apps with
  | nil => intro m g; simp
  | cons a apps ih =>
    intro m g
    simp only [List.foldl_cons, List.map_cons, List.sum_cons]
    rw [ih, ccorAppStep_bucket]
    by_cases hg : g = a.genre
    · simp only [if_pos hg, if_pos hg.symm]
      simp [Nat.add_assoc]
    · simp only [if_neg hg, if_neg (fun hc => hg (Eq.symm hc))]
      simp

/-- C3 counterexample: an app of genre G whose Location grouping has entries
for channel-1 (status 1) and channel-2 (status 0) but no channel-3 entry.
The claim prescribes a (total, missing) increment of (1, 1); the code leaves
the bucket untouched because the CCOR block sits inside the
`len(channels) == 3` branch. -/
theorem c3_counterexample :
    specC3Total c3Apps "G" = 1 ∧ specC3Missing c3Apps "G" = 1
    ∧ ccorTotal c3Apps "G" = 0 ∧ ccorMissing c3Apps "G" = 0
    ∧ ccorTotal c3Apps "G" ≠ specC3Total c3Apps "G" := by decide

/-- C3 amended: the CCOR bucket of the app's genre is incremented only for
categories whose grouping has exactly three distinct channel entries
including channel-1 and channel-2; among those, missing increments exactly
when channel-1's status is 1 and channel-2's is 0; the reported CCOR is
missing / total × 100 (0 for an empty bucket). -/
theorem c3_ccor_requires_all_three_channels (apps : List ParsedApp) (g : String) :
    ccorTotal apps g
      = (apps.map (fun a => if a.genre = g then
          ((permissionChannels a.triples).filter (fun e => e.2.length == 3
            && (dictContains e.2 "渠道一" && dictContains e.2 "渠道二"))).length
          else 0)).sum
    ∧ ccorMissing apps g
      = (apps.map (fun a => if a.genre = g then
          ((permissionChannels a.triples).filter (fun e => (e.2.length == 3
            && (dictContains e.2 "渠道一" && dictContains e.2 "渠道二"))
            && (dictFind e.2 "渠道一" == some 1
                && dictFind e.2 "渠道二" == some 0))).length
          else 0)).sum
    ∧ ccorResult apps g = if ccorTotal apps g > 0 then
        (ccorMissing apps g : ℚ) / (ccorTotal apps g : ℚ) * 100 else 0 := by
  have h := ccorData_bucket apps [] g
  refine ⟨?_, ?_, rfl⟩
  · show ((dictFind (ccorData apps) g).getD (0, 0)).1 = _
    unfold ccorData
    rw [h]
    simp [dictFind]
  · show ((dictFind (ccorData apps) g).getD (0, 0)).2 = _
    unfold ccorData
    rw [h]
    simp [dictFind]

/-! Genre-comparison lemmas. -/

lemma dictSet_fresh [BEq α] (m : List (α × β)) (k : α) (v : β)
    (h : m.any (fun p => p.1 == k) = false) : dictSet m k v = m ++ [(k, v)] := by
  unfold dictSet
  rw [if_neg (by simp [h])]

lemma appPermissionsMap_fresh :
    ∀ (gapps : List ParsedApp) (m : List (String × Finset String)),
      (gapps.map (fun a => a.app_name)).Nodup →
      (∀ a ∈ gapps, m.any (fun p => p.1 == a.app_name) = false) →
      gapps.foldl (fun m a => dictSet m a.app_name (collectedSet a)) m
        = m ++ gapps.map (fun a => (a.app_name, collectedSet a)) := by
  intro gapps
  induction gapps with
  | nil => intro m _ _; simp
  | cons a rest ih =>
    intro m hnd hf
    simp only [List.foldl_cons]
    rw [dictSet_fresh m _ _ (hf a (List.mem_cons_self a rest))]
    have hnd' := hnd
    simp only [List.map_cons, List.nodup_cons] at hnd'
    rw [ih (m ++ [(a.app_name, collectedSet a)]) hnd'.2 ?_]
    · simp
    · intro b hb
      rw [List.any_append]
      have h1 : m.any (fun p => p.1 == b.app_name) = false :=
        hf b (List.mem_cons_of_mem a hb)
      have h2 : ¬ b.app_name = a.app_name := by
        intro hc
        exact hnd'.1 (hc ▸ List.mem_map_of_mem (fun a => a.app_name) hb)
      have h3 : ¬ a.app_name = b.app_name := fun hc => h2 (Eq.symm hc)
      simp [h1, h2, h3]

lemma appPermissionsMap_nodup (gapps : List ParsedApp)
    (h : (gapps.map (fun a => a.app_name)).Nodup) :
    appPermissionsMap gapps = gapps.map (fun a => (a.app_name, collectedSet a)) := by
  have hh := appPermissionsMap_fresh gapps [] h (fun a _ => rfl)
  simpa [appPermissionsMap] using hh

lemma foldl_inter_subset : ∀ (vs : List (Finset String)) (v : Finset String),
    vs.foldl (· ∩ ·) v ⊆ v := by
  intro vs
  induction vs with
  | nil => intro v; exact Finset.Subset.refl v
  | cons w vs ih =>
    intro v
    exact (ih (v ∩ w)).trans Finset.inter_subset_left

lemma subset_foldl_union : ∀ (vs : List (Finset String)) (v : Finset String),
    v ⊆ vs.foldl (· ∪ ·) v := by
  intro vs
  induction vs with
  | nil => intro v; exact Finset.Subset.refl v
  | cons w vs ih =>
    intro v
    exact Finset.subset_union_left.trans (ih (v ∪ w))

lemma specC9Ratio_nil (gapps : List ParsedApp) (h : gapps.map collectedSet = []) :
    specC9Ratio gapps = 0 := by
  unfold specC9Ratio
  rw [h]

lemma specC9Ratio_eq (gapps : List ParsedApp) (v : Finset String) (vs : List (Finset String))
    (h : gapps.map collectedSet = v :: vs) :
    specC9Ratio gapps
      = 100 * ((vs.foldl (· ∩ ·) v).card : ℚ) / ((vs.foldl (· ∪ ·) v).card : ℚ) := by
  unfold specC9Ratio
  rw [h]

lemma genreComparisonEntry_ratio_nil (g : String) (gapps : List ParsedApp)
    (h : (appPermissionsMap gapps).map (fun p => p.2) = []) :
    (genreComparisonEntry g gapps).common_ratio = 0 := by
  unfold genreComparisonEntry
  dsimp only
  rw [h]
  simp

lemma genreComparisonEntry_ratio_eq (g : String) (gapps : List ParsedApp)
    (v : Finset String) (vs : List (Finset String))
    (h : (appPermissionsMap gapps).map (fun p => p.2) = v :: vs) :
    (genreComparisonEntry g gapps).common_ratio
      = (if (vs.foldl (· ∪ ·) v) ≠ ∅ then
          (((if (appPermissionsMap gapps).length > 1 then vs.foldl (· ∩ ·) v
             else vs.foldl (· ∪ ·) v).card : ℚ))
            / (((vs.foldl (· ∪ ·) v).card : ℚ)) * 100
        else 0) := by
  unfold genreComparisonEntry
  dsimp only
  rw [h]

/-- C9 counterexample: genre G has five apps but the first two share display
name "X", so the name-keyed `app_permissions` dict forgets the first app's
{Location} set: the code reports a common ratio of 100 while the claim's
per-app intersection/union formula yields 0. -/
theorem c9_counterexample :
    ((genreApps c9Apps).filter (fun p => 5 ≤ p.2.length)) = [("G", c9Apps)]
    ∧ (prepareGenreComparisonData c9Apps).map (fun e => e.common_ratio) = [100]
    ∧ specC9Ratio c9Apps = 0
    ∧ (100 : ℚ) ≠ 0 := by
  have hfilter : ((genreApps c9Apps).filter (fun p => 5 ≤ p.2.length)) = [("G", c9Apps)] := by
    decide
  have hratio : (genreComparisonEntry "G" c9Apps).common_ratio
      = (((1 : ℕ) : ℚ) / ((1 : ℕ) : ℚ)) * 100 := rfl
  refine ⟨hfilter, ?_, ?_, by norm_num⟩
  · unfold prepareGenreComparisonData
    rw [hfilter]
    simp only [List.map_cons, List.map_nil]
    rw [hratio]
    norm_num
  · have hsets : c9Apps.map collectedSet
        = [{"Location"}, {"Camera"}, {"Camera"}, {"Camera"}, {"Camera"}] := by decide
    rw [specC9Ratio_eq c9Apps {"Location"}
      [{"Camera"}, {"Camera"}, {"Camera"}, {"Camera"}] hsets]
    have hint : (([{"Camera"}, {"Camera"}, {"Camera"}, {"Camera"}] : List (Finset String)).foldl
        (· ∩ ·) {"Location"}).card = 0 := by decide
    have huni : (([{"Camera"}, {"Camera"}, {"Camera"}, {"Camera"}] : List (Finset String)).foldl
        (· ∪ ·) {"Location"}).card = 2 := by decide
    rw [hint, huni]
    norm_num

/-- C9 amended: a genre appears in the genre-comparison output iff it has at
least 5 apps, and the reported common ratio is the intersection-to-union
ratio of the per-app channel-1 presence sets keyed by app *display name*
(apps sharing a name collapse to the last one's set); when the genre's app
names are pairwise distinct this coincides with the claim's per-app
formula. -/
theorem c9_genre_comparison_keyed_by_name (apps : List ParsedApp) :
    ((prepareGenreComparisonData apps).map (fun e => e.genre)
        = ((genreApps apps).filter (fun p => 5 ≤ p.2.length)).map (fun p => p.1))
    ∧ (∀ g gapps, (g, gapps) ∈ genreApps apps → 5 ≤ gapps.length →
        genreComparisonEntry g gapps ∈ prepareGenreComparisonData apps)
    ∧ (∀ g gapps, (gapps.map (fun a => a.app_name)).Nodup →
        (genreComparisonEntry g gapps).common_ratio = specC9Ratio gapps) := by
  refine ⟨?_, ?_, ?_⟩
  · unfold prepareGenreComparisonData
    rw [List.map_map]
    rfl
  · intro g gapps hmem hlen
    unfold prepareGenreComparisonData
    refine List.mem_map.2 ⟨(g, gapps), List.mem_filter.2 ⟨hmem, by simpa⟩, rfl⟩
  · intro g gapps hnd
    have hmap : (appPermissionsMap gapps).map (fun p => p.2) = gapps.map collectedSet := by
      rw [appPermissionsMap_nodup gapps hnd, List.map_map]
      rfl
    have hlenmap : (appPermissionsMap gapps).length = gapps.length := by
      rw [appPermissionsMap_nodup gapps hnd, List.length_map]
    cases hgl : gapps.map collectedSet with
    | nil =>
      rw [specC9Ratio_nil gapps hgl, genreComparisonEntry_ratio_nil g gapps (hmap.trans hgl)]
    | cons v vs =>
      rw [genreComparisonEntry_ratio_eq g gapps v vs (hmap.trans hgl),
        specC9Ratio_eq gapps v vs hgl]
      have hlen : gapps.length = vs.length + 1 := by
        have := congrArg List.length hgl
        simpa using this
      cases vs with
      | nil =>
        have h1 : ¬ (appPermissionsMap gapps).length > 1 := by
          rw [hlenmap, hlen]
          simp
        rw [if_neg h1]
        simp only [List.foldl_nil]
        by_cases hv : v = ∅
        · rw [if_neg (not_not_intro hv)]
          subst hv
          simp
        · rw [if_pos hv]
          ring
      | cons w vs' =>
        have h2 : (appPermissionsMap gapps).length > 1 := by
          rw [hlenmap, hlen, List.length_cons]
          omega
        rw [if_pos h2]
        by_cases hU : (w :: vs').foldl (· ∪ ·) v = ∅
        · rw [if_neg (not_not_intro hU)]
          have hCsub : (w :: vs').foldl (· ∩ ·) v ⊆ (w :: vs').foldl (· ∪ ·) v :=
            (foldl_inter_subset (w :: vs') v).trans (subset_foldl_union (w :: vs') v)
          have hC : (w :: vs').foldl (· ∩ ·) v = ∅ :=
            Finset.subset_empty.1 (hU ▸ hCsub)
          rw [hC, hU]
          simp
        · rw [if_pos hU]
          ring

/-! Grouping-key lemmas for the app-level OCC denominator. -/

lemma dictSet_keys [BEq α] [LawfulBEq α] (m : List (α × β)) (k : α) (v : β) :
    (dictSet m k v).map (fun p => p.1)
      = if m.any (fun q => q.1 == k) then m.map (fun p => p.1)
        else m.map (fun p => p.1) ++ [k] := by
  unfold dictSet
  by_cases h : m.any (fun q => q.1 == k)
  · rw [if_pos h, if_pos h, List.map_map]
    refine List.map_congr_left ?_
    intro q _
    by_cases hq : q.1 == k
    · simp only [Function.comp, if_pos hq]
      exact (eq_of_beq hq).symm
    · simp [Function.comp, hq]
  · rw [if_neg h, if_neg h, List.map_append]
    rfl

lemma pc_keys : ∀ (ts : List PTriple) (m : List (String × List (String × Int))),
    ((((ts.foldl (fun m t => pcUpdate m t.permission t.channel t.status) m).map
          (fun p => p.1)).toFinset
        = (m.map (fun p => p.1)).toFinset ∪ (ts.map (fun t => t.permission)).toFinset)
      ∧ ((m.map (fun p => p.1)).Nodup →
          ((ts.foldl (fun m t => pcUpdate m t.permission t.channel t.status) m).map
              (fun p => p.1)).Nodup)) := by
  intro ts
  induction ts with
  | nil =>
    intro m
    exact ⟨by simp, fun h => h⟩
  | cons t ts ih =>
    intro m
    simp only [List.foldl_cons]
    constructor
    · rw [(ih (pcUpdate m t.permission t.channel t.status)).1]
      have hku : (pcUpdate m t.permission t.channel t.status).map (fun p => p.1)
          = if m.any (fun q => q.1 == t.permission) then m.map (fun p => p.1)
            else m.map (fun p => p.1) ++ [t.permission] := dictSet_keys m _ _
      rw [hku]
      by_cases h : m.any (fun q => q.1 == t.permission)
      · rw [if_pos h]
        have hmem : t.permission ∈ (m.map (fun p => p.1)).toFinset := by
          simp only [List.any_eq_true] at h
          rcases h with ⟨q, hq, hbeq⟩
          simp only [List.mem_toFinset, List.mem_map]
          exact ⟨q, hq, eq_of_beq hbeq⟩
        have hmem' : t.permission ∈ m.map (fun p => p.1) := by
          simpa using hmem
        ext x
        simp only [List.map_cons, Finset.mem_union, List.mem_toFinset, List.toFinset_cons,
          Finset.mem_insert, List.mem_append, List.mem_singleton]
        constructor
        · tauto
        · rintro (hx | hx | hx)
          · tauto
          · subst hx; tauto
          · tauto
      · rw [if_neg h]
        ext x
        simp only [List.map_cons, Finset.mem_union, List.mem_toFinset, List.toFinset_append,
          List.toFinset_cons, Finset.mem_insert, List.mem_append, List.mem_singleton]
        constructor
        · tauto
        · tauto
    · intro hnd
      apply (ih (pcUpdate m t.permission t.channel t.status)).2
      have hku : (pcUpdate m t.permission t.channel t.status).map (fun p => p.1)
          = if m.any (fun q => q.1 == t.permission) then m.map (fun p => p.1)
            else m.map (fun p => p.1) ++ [t.permission] := dictSet_keys m _ _
      rw [hku]
      by_cases h : m.any (fun q => q.1 == t.permission)
      · rw [if_pos h]
        exact hnd
      · rw [if_neg h]
        have hfresh : t.permission ∉ m.map (fun p => p.1) := by
          intro hc
          rcases List.mem_map.1 hc with ⟨q, hq, hqe⟩
          exact absurd (List.any_eq_true.2 ⟨q, hq, by simp [hqe]⟩) h
        simp [List.nodup_append, hnd, hfresh]

lemma appTotal_eq_dedup (a : ParsedApp) :
    appTotal a = (a.triples.map (fun t => t.permission)).dedup.length := by
  have hk := pc_keys a.triples []
  have hnd : ((permissionChannels a.triples).map (fun p => p.1)).Nodup := hk.2 (by simp)
  have hlen : appTotal a = ((permissionChannels a.triples).map (fun p => p.1)).length := by
    unfold appTotal
    rw [List.length_map]
  rw [hlen, ← List.toFinset_card_of_nodup hnd]
  have hsets : ((permissionChannels a.triples).map (fun p => p.1)).toFinset
      = (a.triples.map (fun t => t.permission)).toFinset := by
    have := hk.1
    simpa [permissionChannels] using this
  rw [hsets, List.card_toFinset]

lemma consistentInner_iff (inner : List (String × Int)) :
    consistentInner inner = true ↔
      inner.length = 3 ∧ ∃ s : Int, s ≠ -1 ∧ ∀ x ∈ inner, x.2 = s := by
  cases inner with
  | nil => simp [consistentInner]
  | cons y ys =>
    simp only [consistentInner, List.map_cons, Bool.and_eq_true, beq_iff_eq,
      List.all_eq_true, bne_iff_ne, List.length_cons]
    constructor
    · rintro ⟨h3, hall, hne⟩
      refine ⟨by simpa using h3, y.2, hne, ?_⟩
      intro x hx
      rcases List.mem_cons.1 hx with hx | hx
      · rw [hx]
      · exact hall x.2 (List.mem_map_of_mem (fun p => p.2) hx)
    · rintro ⟨h3, s, hs, hall⟩
      have hy : y.2 = s := hall y (List.mem_cons_self y ys)
      refine ⟨by simpa using h3, ?_, by rw [hy]; exact hs⟩
      intro b hb
      rcases List.mem_map.1 hb with ⟨x, hx, rfl⟩
      rw [hall x (List.mem_cons_of_mem y hx), hy]

/-- C5 counterexample: the code's consistency test is `len(channels) == 3`,
not "the three named channels are present": an app whose Camera row has
entries for 渠道一, 渠道二 and 渠道四 (all status 1) gets app-level OCC 100,
while the claim's formula gives 0 because 渠道三 has no entry. -/
theorem c5_counterexample :
    appsOcc [c5App] = [100] ∧ specC5Occ c5App = 0 ∧ (100 : ℚ) ≠ 0 := by
  refine ⟨?_, ?_, by norm_num⟩
  · have ht : appTotal c5App = 1 := by decide
    have hc : appConsistent c5App = 1 := by decide
    simp only [appsOcc, List.filterMap_cons, List.filterMap_nil, ht, hc]
    norm_num
  · have hs : specC5Consistent c5App = 0 := by decide
    have hd : (c5App.triples.map (fun t => t.permission)).dedup.length = 1 := by decide
    unfold specC5Occ
    rw [hs, hd]
    norm_num

/-- C5 amended: app-level OCC equals 100 × (number of categories whose
grouping has exactly three distinct channel entries — whatever their names —
sharing one status that is not -1) / (number of distinct categories in the
app's triples). -/
theorem c5_app_occ_counts_three_distinct_channels (a : ParsedApp) (h : a.triples ≠ []) :
    appsOcc [a]
      = [(appConsistent a : ℚ)
          / ((a.triples.map (fun t => t.permission)).dedup.length : ℚ) * 100]
    ∧ ∀ e ∈ permissionChannels a.triples,
        (consistentInner e.2 = true ↔
          e.2.length = 3 ∧ ∃ s : Int, s ≠ -1 ∧ ∀ x ∈ e.2, x.2 = s) := by
  constructor
  · have hne : a.triples.map (fun t => t.permission) ≠ [] := by
      intro hc
      exact h (List.map_eq_nil_iff.1 hc)
    have hdl : (a.triples.map (fun t => t.permission)).dedup ≠ [] := by
      intro hc
      exact hne ((List.dedup_eq_nil _).1 hc)
    have hpos : appTotal a > 0 := by
      rw [appTotal_eq_dedup]
      exact List.length_pos.2 hdl
    simp only [appsOcc, List.filterMap_cons, List.filterMap_nil, if_pos hpos]
    rw [appTotal_eq_dedup]
  · intro e _
    exact consistentInner_iff e.2

/-- Witness for C5's amended theorem at a concrete app. -/
theorem c5_witness :
    c5App.triples ≠ []
    ∧ appsOcc [c5App]
      = [(appConsistent c5App : ℚ)
          / ((c5App.triples.map (fun t => t.permission)).dedup.length : ℚ) * 100] :=
  ⟨by decide, (c5_app_occ_counts_three_distinct_channels c5App (by decide)).1⟩

/-! ICA lemmas. -/

lemma foldl_add_map (f : σ → Nat) : ∀ (l : List σ) (n : Nat),
    l.foldl (fun n s => n + f s) n = n + (l.map f).sum := by
  intro l
  induction l with
  | nil => intro n; simp
  | cons s l ih =>
    intro n
    simp only [List.foldl_cons, List.map_cons, List.sum_cons, ih]
    omega

lemma permissionChannels_snoc (ts : List PTriple) (t : PTriple) :
    permissionChannels (ts ++ [t])
      = pcUpdate (permissionChannels ts) t.permission t.channel t.status := by
  unfold permissionChannels
  rw [List.foldl_append]
  rfl

lemma pc_find (ts : List PTriple) (p c : String) :
    dictFind ((dictFind (permissionChannels ts) p).getD []) c
      = ((ts.filter (fun u => u.permission == p && u.channel == c)).getLast?).map
          (fun u => u.status) := by
  induction ts using List.reverseRecOn with
  | nil => rfl
  | append_singleton ts t ih =>
    rw [permissionChannels_snoc, List.filter_append]
    unfold pcUpdate
    by_cases hp : p = t.permission
    · subst hp
      rw [dictFind_dictSet_self]
      simp only [Option.getD_some]
      by_cases hc : c = t.channel
      · subst hc
        rw [dictFind_dictSet_self]
        have hsingle : [t].filter (fun u => u.permission == t.permission
            && u.channel == t.channel) = [t] := by simp
        rw [hsingle, List.getLast?_concat]
        rfl
      · rw [dictFind_dictSet_ne _ _ _ _ hc, ih]
        have hsingle : [t].filter (fun u => u.permission == t.permission
            && u.channel == c) = [] := by
          simp only [List.filter, beq_self_eq_true, Bool.true_and]
          have : (t.channel == c) = false := by
            simp only [beq_eq_false_iff_ne, ne_eq]
            exact fun hcc => hc hcc.symm
          rw [this]
        rw [hsingle, List.append_nil]
    · rw [dictFind_dictSet_ne _ _ _ _ hp, ih]
      have hsingle : [t].filter (fun u => u.permission == p && u.channel == c) = [] := by
        simp only [List.filter]
        have : (t.permission == p) = false := by
          simp only [beq_eq_false_iff_ne, ne_eq]
          exact fun hpp => hp hpp.symm
        rw [this, Bool.false_and]
      rw [hsingle, List.append_nil]

lemma icaStep_eq (pre : List PTriple) (n : Nat) (t : PTriple) :
    icaStep (n, permissionChannels pre) t
      = (n + (if ((pre.filter (fun u => u.permission == t.permission
              && u.channel == t.channel)).getLast?).any (fun u => u.status != t.status)
            then 1 else 0),
         permissionChannels (pre ++ [t])) := by
  unfold icaStep
  rw [permissionChannels_snoc]
  rw [pc_find]
  cases hgl : (pre.filter (fun u => u.permission == t.permission
      && u.channel == t.channel)).getLast? with
  | none => simp [Option.any]
  | some u =>
    simp only [Option.map_some, Option.any_some]
    by_cases hsu : u.status = t.status <;> simp [hsu]

lemma icaSpecAux_cons (pre : List PTriple) (t : PTriple) (ts : List PTriple) :
    icaSpecAux pre (t :: ts)
      = (if ((pre.filter (fun u => u.permission == t.permission
            && u.channel == t.channel)).getLast?).any (fun u => u.status != t.status)
         then 1 else 0)
          + icaSpecAux (pre ++ [t]) ts := rfl

lemma icaFold_fst (ts : List PTriple) : ∀ (n : Nat) (pre : List PTriple),
    (ts.foldl icaStep (n, permissionChannels pre)).1 = n + icaSpecAux pre ts := by
  induction ts with
  | nil => intro n pre; simp [icaSpecAux]
  | cons t ts ih =>
    intro n pre
    simp only [List.foldl_cons]
    rw [icaStep_eq pre n t, ih _ (pre ++ [t]), icaSpecAux_cons]
    omega

lemma icaCountApp_eq_spec (ts : List PTriple) : icaCountApp ts = icaSpecApp ts := by
  unfold icaCountApp icaSpecApp
  have h := icaFold_fst ts 0 []
  simpa [permissionChannels] using h

/-- C4 counterexample: one parsed app whose single triple has status -1 (the
generator's internal-contradiction marker).  The claim says each such triple
contributes exactly one ICA count; the code's ICA counter only fires when a
repeated (permission, channel) slot is rewritten with a different status, so
it stays 0 here. -/
theorem c4_counterexample :
    specC4Total c4Apps = 1 ∧ icaCount c4Apps = 0
    ∧ icaCount c4Apps ≠ specC4Total c4Apps := by decide

/-- C4 amended: the ICA total counts, across all apps, exactly the triples
that re-record an already-seen (permission, channel) slot of the same app
with a status different from the last recorded one; the reported ICA ratio
is that total over the number of all triples processed, × 100 (0 when there
are no triples). -/
theorem c4_ica_counts_conflicting_repeats (apps : List ParsedApp) :
    icaCount apps = (apps.map (fun a => icaSpecApp a.triples)).sum
    ∧ totalPermissionsMetrics apps = (apps.map (fun a => a.triples.length)).sum
    ∧ icaRatioMetric apps
      = if totalPermissionsMetrics apps > 0 then
          (icaCount apps : ℚ) / (totalPermissionsMetrics apps : ℚ) * 100
        else 0 := by
  refine ⟨?_, ?_, rfl⟩
  · unfold icaCount
    rw [foldl_add_map (fun a => icaCountApp a.triples) apps 0]
    simp only [Nat.zero_add]
    have hmc : apps.map (fun a => icaCountApp a.triples)
        = apps.map (fun a => icaSpecApp a.triples) :=
      List.map_congr_left (fun a _ => icaCountApp_eq_spec a.triples)
    rw [hmc]
  · unfold totalPermissionsMetrics
    rw [foldl_add_map (fun a => a.triples.length) apps 0]
    simp

/-! Overall-OCC-trend lemmas. -/

lemma trendStep_eq (L : Nat) (cc ct : ℚ) (out : List ℚ) (occ : ℚ) :
    trendStep L (cc, ct, out) occ
      = (cc + ((⌊occ / 100 * (L : ℚ)⌋ : ℤ) : ℚ), ct + (L : ℚ),
         out ++ [if ct + (L : ℚ) > 0 then
            (cc + ((⌊occ / 100 * (L : ℚ)⌋ : ℤ) : ℚ)) / (ct + (L : ℚ)) * 100 else 0]) := rfl

lemma trend_fold_spec (L : Nat) : ∀ (occs : List ℚ) (cc ct : ℚ) (out : List ℚ),
    (occs.foldl (trendStep L) (cc, ct, out)).2.2
      = out ++ (List.range occs.length).map (fun (i : ℕ) =>
          if ct + ((i : ℚ) + 1) * (L : ℚ) > 0 then
            (cc + ((occs.take (i + 1)).map
                (fun occ => ((⌊occ / 100 * (L : ℚ)⌋ : ℤ) : ℚ))).sum)
              / (ct + ((i : ℚ) + 1) * (L : ℚ)) * 100
          else 0) := by
  intro occs
  induction occs with
  | nil => intro cc ct out; simp
  | cons occ occs ih =>
    intro cc ct out
    rw [List.foldl_cons, trendStep_eq, ih, List.append_assoc]
    congr 1
    rw [List.length_cons, List.range_succ_eq_map, List.map_cons, List.map_map,
      List.singleton_append]
    congr 1
    · have hc : ct + (((0 : ℕ) : ℚ) + 1) * (L : ℚ) = ct + (L : ℚ) := by
        push_cast
        ring
      rw [hc]
      have hn : ((occ :: occs).take (0 + 1)).map
          (fun occ => ((⌊occ / 100 * (L : ℚ)⌋ : ℤ) : ℚ)) = [((⌊occ / 100 * (L : ℚ)⌋ : ℤ) : ℚ)] :=
        rfl
      rw [hn]
      simp
    · refine List.map_congr_left ?_
      intro i _
      simp only [Function.comp, Nat.succ_eq_add_one]
      have hc : ct + (((i + 1 : ℕ) : ℚ) + 1) * (L : ℚ)
          = ct + (L : ℚ) + (((i : ℕ) : ℚ) + 1) * (L : ℚ) := by
        push_cast
        ring
      rw [hc, List.take_succ_cons, List.map_cons, List.sum_cons]
      by_cases hpos : ct + (L : ℚ) + (((i : ℕ) : ℚ) + 1) * (L : ℚ) > 0
      · rw [if_pos hpos, if_pos hpos]
        ring
      · rw [if_neg hpos, if_neg hpos]

/-- C2 amended: the i-th trend entry is not the running average of the first
i+1 OCC percentages; it is 100 × (Σ_{j ≤ i} ⌊occ_j / 100 × L⌋) / ((i+1) × L),
where L is the category count of the grouping of the *last* app in the file
(the `permission_channels` variable left over from the per-app loop) and the
inner `int(...)` truncation is the floor. -/
theorem c2_trend_uses_last_apps_category_count (apps : List ParsedApp) :
    overallOccTrend apps
      = (List.range (appsOcc apps).length).map (fun (i : ℕ) =>
          if ((i : ℚ) + 1) * (lastLen apps : ℚ) > 0 then
            (((appsOcc apps).take (i + 1)).map
                (fun occ => ((⌊occ / 100 * (lastLen apps : ℚ)⌋ : ℤ) : ℚ))).sum
              / (((i : ℚ) + 1) * (lastLen apps : ℚ)) * 100
          else 0) := by
  unfold overallOccTrend
  rw [trend_fold_spec (lastLen apps) (appsOcc apps) 0 0 []]
  rw [List.nil_append]
  refine List.map_congr_left ?_
  intro i _
  simp only [zero_add]

/-- C2 counterexample: with a first app of OCC 100/3 (one of three categories
consistent) and a last app with a single consistent category (so
`len(permission_channels)` is left at 1), the first trend entry is 0 — the
floor of 1/3 — and the second is 50, while the running averages of the
app-level OCCs are 100/3 and 200/3. -/
theorem c2_counterexample :
    appsOcc c2Apps = [100 / 3, 100]
    ∧ overallOccTrend c2Apps = [0, 50]
    ∧ specC2RunningAvg (appsOcc c2Apps) 0 = 100 / 3
    ∧ specC2RunningAvg (appsOcc c2Apps) 1 = 200 / 3
    ∧ ((0 : ℚ) ≠ 100 / 3) ∧ ((50 : ℚ) ≠ 200 / 3) := by
  have ht1 : appTotal (⟨"A", "1", "G",
      [⟨"渠道一", "Location", 1⟩, ⟨"渠道二", "Location", 1⟩, ⟨"渠道三", "Location", 1⟩,
       ⟨"渠道一", "Camera", 1⟩, ⟨"渠道一", "SMS", 1⟩]⟩ : ParsedApp) = 3 := by decide
  have hc1 : appConsistent (⟨"A", "1", "G",
      [⟨"渠道一", "Location", 1⟩, ⟨"渠道二", "Location", 1⟩, ⟨"渠道三", "Location", 1⟩,
       ⟨"渠道一", "Camera", 1⟩, ⟨"渠道一", "SMS", 1⟩]⟩ : ParsedApp) = 1 := by decide
  have ht2 : appTotal (⟨"B", "2", "G",
      [⟨"渠道一", "Location", 1⟩, ⟨"渠道二", "Location", 1⟩, ⟨"渠道三", "Location", 1⟩]⟩
        : ParsedApp) = 1 := by decide
  have hc2 : appConsistent (⟨"B", "2", "G",
      [⟨"渠道一", "Location", 1⟩, ⟨"渠道二", "Location", 1⟩, ⟨"渠道三", "Location", 1⟩]⟩
        : ParsedApp) = 1 := by decide
  have hocc : appsOcc c2Apps = [100 / 3, 100] := by
    simp only [c2Apps, appsOcc, List.filterMap_cons, List.filterMap_nil, ht1, hc1, ht2, hc2]
    norm_num
  have hlast : lastLen c2Apps = 1 := by decide
  refine ⟨hocc, ?_, ?_, ?_, by norm_num, by norm_num⟩
  · unfold overallOccTrend
    rw [hocc, hlast]
    rw [List.foldl_cons, trendStep_eq, List.foldl_cons, trendStep_eq, List.foldl_nil]
    norm_num
  · rw [hocc]
    unfold specC2RunningAvg
    norm_num
  · rw [hocc]
    unfold specC2RunningAvg
    have : (([100 / 3, 100] : List ℚ).take 2) = [100 / 3, 100] := rfl
    rw [this]
    norm_num

/-! String lemmas for the round-trip proof. -/

lemma isPrefixOf_cons₂ (a b : Char) (as bs : List Char) :
    (a :: as).isPrefixOf (b :: bs) = (a == b && as.isPrefixOf bs) := rfl

lemma isPrefixOf_self_append : ∀ (l t : List Char), l.isPrefixOf (l ++ t) = true := by
  intro l
  induction l with
  | nil => intro t; simp
  | cons c rest ih =>
    intro t
    rw [List.cons_append, isPrefixOf_cons₂, ih t]
    simp

lemma isPrefixOf_append_of_le : ∀ (p pre tail : List Char), p.length ≤ pre.length →
    p.isPrefixOf (pre ++ tail) = p.isPrefixOf pre := by
  intro p
  induction p with
  | nil => intro pre tail _; simp
  | cons a as ih =>
    intro pre tail hlen
    cases pre with
    | nil => simp at hlen
    | cons b bs =>
      rw [List.cons_append, isPrefixOf_cons₂, isPrefixOf_cons₂,
        ih bs tail (by simpa using hlen)]

lemma charsSplit_ne_nil (sep : Char) : ∀ (l : List Char), charsSplit sep l ≠ [] := by
  intro l
  induction l with
  | nil => simp [charsSplit]
  | cons c rest ih =>
    unfold charsSplit
    cases hs : charsSplit sep rest with
    | nil => simp
    | cons h t => by_cases hc : c = sep <;> simp [hc]

lemma charsSplit_append (sep : Char) :
    ∀ (cl tail : List Char), cl.contains sep = false →
      charsSplit sep (cl ++ sep :: tail) = cl :: charsSplit sep tail := by
  intro cl
  induction cl with
  | nil =>
    intro tail _
    rw [List.nil_append]
    have e : charsSplit sep (sep :: tail)
        = match charsSplit sep tail with
          | [] => [[sep]]
          | h :: t => if sep = sep then [] :: h :: t else (sep :: h) :: t := rfl
    rw [e]
    cases hs : charsSplit sep tail with
    | nil => exact absurd hs (charsSplit_ne_nil sep tail)
    | cons h t => simp
  | cons c rest ih =>
    intro tail hc
    rw [List.contains_cons, Bool.or_eq_false_iff] at hc
    have hcs : ¬ c = sep := by
      intro hcc
      rw [hcc] at hc
      simp at hc
    rw [List.cons_append]
    have e : charsSplit sep (c :: (rest ++ sep :: tail))
        = match charsSplit sep (rest ++ sep :: tail) with
          | [] => [[c]]
          | h :: t => if c = sep then [] :: h :: t else (c :: h) :: t := rfl
    rw [e, ih tail hc.2]
    simp [hcs]

lemma split_joinLines (lines : List String)
    (h : ∀ l ∈ lines, strContainsChar l '\n' = false) :
    strSplitOnChar (joinLines lines) '\n' = lines ++ [""] := by
  unfold strSplitOnChar joinLines
  have htl : (String.mk (lines.flatMap (fun l => l.toList ++ ['\n']))).toList
      = lines.flatMap (fun l => l.toList ++ ['\n']) := rfl
  rw [htl]
  have main : ∀ (ls : List String), (∀ l ∈ ls, strContainsChar l '\n' = false) →
      charsSplit '\n' (ls.flatMap (fun l => l.toList ++ ['\n']))
        = ls.map (fun l => l.toList) ++ [[]] := by
    intro ls
    induction ls with
    | nil => intro _; rfl
    | cons l rest ih =>
      intro hall
      have hl : l.toList.contains '\n' = false := hall l (List.mem_cons_self l rest)
      rw [List.flatMap_cons, List.append_assoc, List.singleton_append,
        charsSplit_append '\n' l.toList _ hl, ih (fun x hx => hall x (List.mem_cons_of_mem l hx))]
      rfl
  rw [main lines h, List.map_append]
  have : ∀ (ls : List String), ls.map (fun l => String.mk l.toList) = ls := by
    intro ls
    induction ls with
    | nil => rfl
    | cons x xs ihx =>
      rw [List.map_cons, ihx]
      rfl
  rw [List.map_map]
  have h2 : lines.map (String.mk ∘ fun l => l.toList) = lines := this lines
  rw [h2]
  rfl

lemma charsRemoveAllFuel_norm (pat : List Char) (fuel : Nat) :
    ∀ (l : List Char), l.length ≤ fuel → charsRemoveAllFuel pat fuel l = charsRemoveAll pat l := by
  induction fuel using Nat.strong_induction_on with
  | _ fuel ih =>
    intro l hl
    cases fuel with
    | zero =>
      have hnil : l = [] := List.eq_nil_of_length_eq_zero (Nat.le_zero.1 hl)
      subst hnil
      rfl
    | succ fuel =>
      cases l with
      | nil => rfl
      | cons c rest =>
        have hr : rest.length ≤ fuel := by
          simpa using hl
        have e1 : charsRemoveAllFuel pat (fuel + 1) (c :: rest)
            = if pat ≠ [] ∧ pat.isPrefixOf (c :: rest) = true then
                charsRemoveAllFuel pat fuel (rest.drop (pat.length - 1))
              else c :: charsRemoveAllFuel pat fuel rest := rfl
        have e2 : charsRemoveAll pat (c :: rest)
            = if pat ≠ [] ∧ pat.isPrefixOf (c :: rest) = true then
                charsRemoveAllFuel pat rest.length (rest.drop (pat.length - 1))
              else c :: charsRemoveAllFuel pat rest.length rest := rfl
        rw [e1, e2]
        by_cases hcond : pat ≠ [] ∧ pat.isPrefixOf (c :: rest) = true
        · rw [if_pos hcond, if_pos hcond]
          have hd : (rest.drop (pat.length - 1)).length ≤ rest.length := by
            rw [List.length_drop]
            omega
          rw [ih fuel (Nat.lt_succ_self fuel) _ (le_trans hd hr),
            ih rest.length (by omega) _ hd]
        · rw [if_neg hcond, if_neg hcond, ih fuel (Nat.lt_succ_self fuel) rest hr]
          rfl

lemma charsRemoveAll_cons_nomatch (pat : List Char) (c : Char) (rest : List Char)
    (h : ¬ (pat ≠ [] ∧ pat.isPrefixOf (c :: rest) = true)) :
    charsRemoveAll pat (c :: rest) = c :: charsRemoveAll pat rest := by
  have e2 : charsRemoveAll pat (c :: rest)
      = if pat ≠ [] ∧ pat.isPrefixOf (c :: rest) = true then
          charsRemoveAllFuel pat rest.length (rest.drop (pat.length - 1))
        else c :: charsRemoveAllFuel pat rest.length rest := rfl
  rw [e2, if_neg h, charsRemoveAllFuel_norm pat rest.length rest (le_refl _)]

lemma charsRemoveAll_of_not_infix (pat : List Char) :
    ∀ (l : List Char), charsHasInfix pat l = false → charsRemoveAll pat l = l := by
  intro l
  induction l with
  | nil => intro _; rfl
  | cons c rest ih =>
    intro h
    unfold charsHasInfix at h
    rw [Bool.or_eq_false_iff] at h
    rw [charsRemoveAll_cons_nomatch pat c rest (by
      rintro ⟨_, hpre⟩
      rw [h.1] at hpre
      exact Bool.false_ne_true hpre)]
    rw [ih h.2]

lemma charsRemoveAll_self_append (pat tail : List Char) (hp : pat ≠ []) :
    charsRemoveAll pat (pat ++ tail) = charsRemoveAll pat tail := by
  cases hpat : pat with
  | nil => exact absurd hpat hp
  | cons p ps =>
    rw [← hpat]
    have hshape : pat ++ tail = p :: (ps ++ tail) := by rw [hpat]; rfl
    rw [hshape]
    have e2 : charsRemoveAll pat (p :: (ps ++ tail))
        = if pat ≠ [] ∧ pat.isPrefixOf (p :: (ps ++ tail)) = true then
            charsRemoveAllFuel pat (ps ++ tail).length ((ps ++ tail).drop (pat.length - 1))
          else p :: charsRemoveAllFuel pat (ps ++ tail).length (ps ++ tail) := rfl
    rw [e2, if_pos ⟨hp, by rw [← hshape]; exact isPrefixOf_self_append pat tail⟩]
    have hdrop : (ps ++ tail).drop (pat.length - 1) = tail := by
      rw [hpat]
      simp only [List.length_cons, Nat.add_sub_cancel]
      exact List.drop_left ps tail
    rw [hdrop]
    exact charsRemoveAllFuel_norm pat (ps ++ tail).length tail
      (by rw [List.length_append]; omega)

lemma dropWhile_eq_self_head (c : Char) (rest : List Char)
    (h : (c :: rest).dropWhile Char.isWhitespace = c :: rest) : ¬ c.isWhitespace = true := by
  intro hws
  rw [List.dropWhile_cons, if_pos hws] at h
  have hlen := congrArg List.length h
  have hle := (List.dropWhile_sublist (l := rest) Char.isWhitespace).length_le
  simp only [List.length_cons] at hlen
  omega

lemma dropWhile_append_of_self (l t : List Char) (hne : l ≠ [])
    (h : l.dropWhile Char.isWhitespace = l) :
    (l ++ t).dropWhile Char.isWhitespace = l ++ t := by
  cases l with
  | nil => exact absurd rfl hne
  | cons c rest =>
    have hc := dropWhile_eq_self_head c rest h
    rw [List.cons_append, List.dropWhile_cons, if_neg hc]

lemma charsTrim_block (mcs ncs : List Char) (hmne : mcs ≠ [])
    (hml : mcs.dropWhile Char.isWhitespace = mcs)
    (hmr : mcs.reverse.dropWhile Char.isWhitespace = mcs.reverse)
    (hnl : ncs.dropWhile Char.isWhitespace = ncs)
    (hnr : ncs.reverse.dropWhile Char.isWhitespace = ncs.reverse) :
    charsTrim (mcs ++ ' ' :: ncs) = if ncs = [] then mcs else mcs ++ ' ' :: ncs := by
  unfold charsTrim
  rw [dropWhile_append_of_self mcs (' ' :: ncs) hmne hml]
  have hrev : (mcs ++ ' ' :: ncs).reverse = ncs.reverse ++ ' ' :: mcs.reverse := by
    rw [List.reverse_append, List.reverse_cons, List.append_assoc, List.singleton_append]
  rw [hrev]
  by_cases hn : ncs = []
  · subst hn
    rw [if_pos rfl]
    simp only [List.reverse_nil, List.nil_append, List.dropWhile_cons]
    rw [if_pos (by decide), hmr, List.reverse_reverse]
  · rw [if_neg hn]
    have hrne : ncs.reverse ≠ [] := fun hcon => hn (by simpa using congrArg List.reverse hcon)
    rw [dropWhile_append_of_self ncs.reverse (' ' :: mcs.reverse) hrne hnr, ← hrev,
      List.reverse_reverse]

lemma charsTrim_space_ok (ncs : List Char)
    (hnl : ncs.dropWhile Char.isWhitespace = ncs)
    (hnr : ncs.reverse.dropWhile Char.isWhitespace = ncs.reverse) :
    charsTrim (' ' :: ncs) = ncs := by
  unfold charsTrim
  rw [List.dropWhile_cons, if_pos (by decide), hnl, hnr, List.reverse_reverse]

lemma string_toList_append (s t : String) : (s ++ t).toList = s.toList ++ t.toList :=
  String.data_append s t

lemma marker_line_toList (marker name : String) :
    (marker ++ " " ++ name).toList = marker.toList ++ ' ' :: name.toList := by
  rw [string_toList_append, string_toList_append]
  have hsp : (" " : String).toList = [' '] := by decide
  rw [hsp, List.append_assoc, List.singleton_append]

lemma parse_marker_line (marker name : String)
    (hmne : marker.toList ≠ [])
    (hml : marker.toList.dropWhile Char.isWhitespace = marker.toList)
    (hmr : marker.toList.reverse.dropWhile Char.isWhitespace = marker.toList.reverse)
    (hok : okStr name marker) :
    strStartsWith (strTrim (marker ++ " " ++ name)) marker = true
    ∧ strTrim (strReplaceAll (strTrim (marker ++ " " ++ name)) marker) = name
    ∧ ¬ strTrim (marker ++ " " ++ name) = "" := by
  obtain ⟨hnl, hnr, _, hninf⟩ := hok
  have htb := charsTrim_block marker.toList name.toList hmne hml hmr hnl hnr
  have htrim : strTrim (marker ++ " " ++ name)
      = if name.toList = [] then String.mk marker.toList
        else String.mk (marker.toList ++ ' ' :: name.toList) := by
    unfold strTrim
    rw [marker_line_toList, htb]
    split <;> rfl
  have hinf_sp : charsHasInfix marker.toList (' ' :: name.toList) = false := by
    unfold charsHasInfix
    rw [Bool.or_eq_false_iff]
    constructor
    · obtain ⟨mh, mrest, hmm⟩ := List.exists_cons_of_ne_nil hmne
      rw [hmm, isPrefixOf_cons₂]
      have hmh : ¬ mh.isWhitespace = true :=
        dropWhile_eq_self_head mh mrest (hmm ▸ hml)
      have hsp : (mh == ' ') = false := by
        rw [beq_eq_false_iff_ne]
        intro hcc
        subst hcc
        exact hmh (by decide)
      rw [hsp, Bool.false_and]
    · exact hninf
  refine ⟨?_, ?_, ?_⟩
  · rw [htrim]
    by_cases hn : name.toList = []
    · rw [if_pos hn]
      unfold strStartsWith
      have := isPrefixOf_self_append marker.toList []
      rw [List.append_nil] at this
      exact this
    · rw [if_neg hn]
      exact isPrefixOf_self_append marker.toList (' ' :: name.toList)
  · rw [htrim]
    by_cases hn : name.toList = []
    · rw [if_pos hn]
      unfold strReplaceAll
      have h1 : charsRemoveAll marker.toList (String.mk marker.toList).toList = [] := by
        show charsRemoveAll marker.toList marker.toList = []
        have := charsRemoveAll_self_append marker.toList [] hmne
        rw [List.append_nil] at this
        rw [this]
        rfl
      rw [h1]
      have hname : name = "" := by
        cases name with
        | mk d => cases hn; rfl
      rw [hname]
      rfl
    · rw [if_neg hn]
      unfold strReplaceAll
      have h1 : charsRemoveAll marker.toList
          (String.mk (marker.toList ++ ' ' :: name.toList)).toList = ' ' :: name.toList := by
        show charsRemoveAll marker.toList (marker.toList ++ ' ' :: name.toList)
            = ' ' :: name.toList
        rw [charsRemoveAll_self_append _ _ hmne, charsRemoveAll_of_not_infix _ _ hinf_sp]
      rw [h1]
      unfold strTrim
      have : (String.mk (' ' :: name.toList)).toList = ' ' :: name.toList := rfl
      rw [this, charsTrim_space_ok name.toList hnl hnr]
      rfl
  · rw [htrim]
    by_cases hn : name.toList = []
    · rw [if_pos hn]
      intro hcon
      exact hmne (congrArg String.toList hcon)
    · rw [if_neg hn]
      intro hcon
      have hcl := congrArg String.toList hcon
      obtain ⟨mh, mrest, hmm⟩ := List.exists_cons_of_ne_nil hmne
      rw [hmm] at hcl
      exact List.noConfusion hcl

lemma startsWith_trim_ne (marker name other : String)
    (hmne : marker.toList ≠ [])
    (hml : marker.toList.dropWhile Char.isWhitespace = marker.toList)
    (hmr : marker.toList.reverse.dropWhile Char.isWhitespace = marker.toList.reverse)
    (hok : okStr name marker)
    (hlen : other.toList.length ≤ marker.toList.length)
    (hmm : other.toList.isPrefixOf marker.toList = false) :
    strStartsWith (strTrim (marker ++ " " ++ name)) other = false := by
  obtain ⟨hnl, hnr, _, _⟩ := hok
  have htb := charsTrim_block marker.toList name.toList hmne hml hmr hnl hnr
  unfold strStartsWith strTrim
  rw [marker_line_toList, htb]
  by_cases hn : name.toList = []
  · rw [if_pos hn]
    show other.toList.isPrefixOf marker.toList = false
    exact hmm
  · rw [if_neg hn]
    show other.toList.isPrefixOf (marker.toList ++ ' ' :: name.toList) = false
    rw [isPrefixOf_append_of_le other.toList marker.toList (' ' :: name.toList) hlen]
    exact hmm

/-! Behaviour of `parseLine` on each kind of line `save_results` writes. -/

lemma parseLine_empty (st : ParseState) : parseLine st "" = st := rfl

lemma parseLine_marker4 (st : ParseState) : parseLine st "权限三元组:" = st := rfl

lemma parseLine_sep_final (apps : List ParsedApp) (n i g : String) (ts : List PTriple)
    (hne : ts ≠ []) :
    parseLine ⟨apps, ⟨some n, some i, some g⟩, ts⟩ separatorLine
      = ⟨apps ++ [⟨n, i, g, ts⟩], ⟨none, none, none⟩, []⟩ := by
  obtain ⟨x, xs, rfl⟩ := List.exists_cons_of_ne_nil hne
  rfl

lemma parseFlush_final (apps : List ParsedApp) (n i g : String) (ts : List PTriple)
    (hne : ts ≠ []) :
    parseFlush ⟨apps, ⟨some n, some i, some g⟩, ts⟩ = apps ++ [⟨n, i, g, ts⟩] := by
  obtain ⟨x, xs, rfl⟩ := List.exists_cons_of_ne_nil hne
  rfl

lemma parseLine_name (st : ParseState) (v : String) (hok : okStr v "应用名称:")
    (hflush : (st.cur.truthy && !st.triples.isEmpty) = false) :
    parseLine st ("应用名称: " ++ v)
      = { st with cur := ⟨some v, some "", some ""⟩ } := by
  have hline : ("应用名称: " ++ v) = ("应用名称:" ++ " " ++ v) := rfl
  obtain ⟨h1, h2, h3⟩ :=
    parse_marker_line "应用名称:" v (by decide) (by decide) (by decide) hok
  rw [hline]
  unfold parseLine
  dsimp only
  rw [if_neg h3, if_pos h1, hflush, if_neg Bool.false_ne_true, h2]

lemma parseLine_id (st : ParseState) (v : String) (hok : okStr v "应用ID:") :
    parseLine st ("应用ID: " ++ v)
      = { st with cur := { st.cur with id := some v } } := by
  have hline : ("应用ID: " ++ v) = ("应用ID:" ++ " " ++ v) := rfl
  obtain ⟨h1, h2, h3⟩ :=
    parse_marker_line "应用ID:" v (by decide) (by decide) (by decide) hok
  have hne1 := startsWith_trim_ne "应用ID:" v "应用名称:" (by decide) (by decide) (by decide)
    hok (by decide) (by decide)
  rw [hline]
  unfold parseLine
  dsimp only
  rw [if_neg h3, if_neg (by rw [hne1]; exact Bool.false_ne_true), if_pos h1, h2]

lemma parseLine_genre (st : ParseState) (v : String) (hok : okStr v "应用类别:") :
    parseLine st ("应用类别: " ++ v)
      = { st with cur := { st.cur with genre := some v } } := by
  have hline : ("应用类别: " ++ v) = ("应用类别:" ++ " " ++ v) := rfl
  obtain ⟨h1, h2, h3⟩ :=
    parse_marker_line "应用类别:" v (by decide) (by decide) (by decide) hok
  have hne1 := startsWith_trim_ne "应用类别:" v "应用名称:" (by decide) (by decide) (by decide)
    hok (by decide) (by decide)
  have hne2 := startsWith_trim_ne "应用类别:" v "应用ID:" (by decide) (by decide) (by decide)
    hok (by decide) (by decide)
  rw [hline]
  unfold parseLine
  dsimp only
  rw [if_neg h3, if_neg (by rw [hne1]; exact Bool.false_ne_true),
    if_neg (by rw [hne2]; exact Bool.false_ne_true), if_pos h1, h2]

lemma parseLine_triple (st : ParseState) (ch : Chan) (cat : Cat) (s : Int)
    (hs : s = -1 ∨ s = 0 ∨ s = 1) :
    parseLine st (ch.chanName ++ "," ++ cat.name ++ "," ++ toString s)
      = { st with triples := st.triples ++ [⟨ch.chanName, cat.name, s⟩] } := by
  rcases hs with rfl | rfl | rfl <;> cases ch <;> cases cat <;> rfl

/-! Re-parsing a written block reproduces it. -/

lemma parse_triples : ∀ (ts : List (String × String × Int)),
    (∀ t ∈ ts, okTriple t) → ∀ (st : ParseState),
    (ts.map (fun t => t.1 ++ "," ++ t.2.1 ++ "," ++ toString t.2.2)).foldl parseLine st
      = { st with triples := st.triples ++ ts.map ptripleOf } := by
  intro ts
  induction ts with
  | nil =>
    intro _ st
    rw [List.map_nil, List.foldl_nil, List.map_nil, List.append_nil]
  | cons t ts ih =>
    intro hall st
    obtain ⟨⟨ch, hch⟩, ⟨c, hc⟩, hs⟩ := hall t (List.mem_cons_self t ts)
    rw [List.map_cons, List.foldl_cons]
    have hline : t.1 ++ "," ++ t.2.1 ++ "," ++ toString t.2.2
        = ch.chanName ++ "," ++ c.name ++ "," ++ toString t.2.2 := by rw [hch, hc]
    rw [hline, parseLine_triple st ch c t.2.2 hs,
      ih (fun x hx => hall x (List.mem_cons_of_mem t hx))]
    have hpt : ptripleOf t = ⟨ch.chanName, c.name, t.2.2⟩ := by
      unfold ptripleOf
      rw [hch, hc]
    rw [List.map_cons, hpt]
    dsimp only
    rw [List.append_assoc]
    rfl

lemma parse_block (apps : List ParsedApp)
    (g : (String × String × String) × List (String × String × Int)) (hg : okGroup g) :
    (blockLines g.1 g.2).foldl parseLine ⟨apps, ⟨none, none, none⟩, []⟩
      = ⟨apps, ⟨some g.1.1, some g.1.2.1, some g.1.2.2⟩, g.2.map ptripleOf⟩ := by
  obtain ⟨hn, hi, hgen, hne, hts⟩ := hg
  unfold blockLines
  rw [List.foldl_cons,
    parseLine_name (⟨apps, ⟨none, none, none⟩, []⟩ : ParseState) g.1.1 hn rfl,
    List.foldl_cons, parseLine_id _ _ hi,
    List.foldl_cons, parseLine_genre _ _ hgen, List.foldl_cons, parseLine_marker4,
    parse_triples g.2 hts]
  rfl

lemma parse_saveBlocks :
    ∀ (groups : List ((String × String × String) × List (String × String × Int)))
      (apps : List ParsedApp), (∀ g ∈ groups, okGroup g) →
      parseFlush ((saveBlocks groups).foldl parseLine ⟨apps, ⟨none, none, none⟩, []⟩)
        = apps ++ groups.map groupParsed := by
  intro groups
  induction groups with
  | nil =>
    intro apps _
    rw [List.map_nil, List.append_nil]
    rfl
  | cons g rest ih =>
    intro apps hall
    have hmapne : g.2.map ptripleOf ≠ [] := by
      obtain ⟨_, _, _, hne, _⟩ := hall g (List.mem_cons_self g rest)
      cases hg2 : g.2 with
      | nil => exact absurd hg2 hne
      | cons x xs => simp
    cases rest with
    | nil =>
      have hsb : saveBlocks [g] = blockLines g.1 g.2 := rfl
      rw [hsb, parse_block apps g (hall g (List.mem_cons_self g [])),
        parseFlush_final apps g.1.1 g.1.2.1 g.1.2.2 (g.2.map ptripleOf) hmapne]
      rfl
    | cons g' rest' =>
      have hsb : saveBlocks (g :: g' :: rest')
          = blockLines g.1 g.2 ++ separatorLine :: saveBlocks (g' :: rest') := rfl
      rw [hsb, List.foldl_append, parse_block apps g (hall g (List.mem_cons_self g _)),
        List.foldl_cons,
        parseLine_sep_final apps g.1.1 g.1.2.1 g.1.2.2 (g.2.map ptripleOf) hmapne]
      have hgp : (⟨g.1.1, g.1.2.1, g.1.2.2, g.2.map ptripleOf⟩ : ParsedApp)
          = groupParsed g := rfl
      rw [hgp, ih (apps ++ [groupParsed g]) (fun x hx => hall x (List.mem_cons_of_mem g hx)),
        List.append_assoc]
      rfl

lemma parseLines_trailing (ls : List String) : parseLines (ls ++ [""]) = parseLines ls := by
  unfold parseLines
  rw [List.foldl_append]
  rfl

lemma parseLines_saveBlocks
    (groups : List ((String × String × String) × List (String × String × Int)))
    (hall : ∀ g ∈ groups, okGroup g) :
    parseLines (saveBlocks groups) = groups.map groupParsed :=
  parse_saveBlocks groups [] hall

/-! The written file splits back into its lines. -/

lemma chars_contains_append (c : Char) (l t : List Char) :
    (l ++ t).contains c = (l.contains c || t.contains c) := by
  induction l with
  | nil => rfl
  | cons x xs ih =>
    rw [List.cons_append, List.contains_cons, List.contains_cons, ih, Bool.or_assoc]

lemma blockLines_newline_free
    (g : (String × String × String) × List (String × String × Int)) (hg : okGroup g) :
    ∀ l ∈ blockLines g.1 g.2, strContainsChar l '\n' = false := by
  obtain ⟨hn, hi, hgen, _, hts⟩ := hg
  intro l hl
  unfold blockLines at hl
  simp only [List.mem_cons] at hl
  rcases hl with rfl | rfl | rfl | rfl | hmem
  · show ("应用名称: " ++ g.1.1).toList.contains '\n' = false
    rw [string_toList_append, chars_contains_append,
      (by decide : ("应用名称: " : String).toList.contains '\n' = false), Bool.false_or]
    exact hn.2.2.1
  · show ("应用ID: " ++ g.1.2.1).toList.contains '\n' = false
    rw [string_toList_append, chars_contains_append,
      (by decide : ("应用ID: " : String).toList.contains '\n' = false), Bool.false_or]
    exact hi.2.2.1
  · show ("应用类别: " ++ g.1.2.2).toList.contains '\n' = false
    rw [string_toList_append, chars_contains_append,
      (by decide : ("应用类别: " : String).toList.contains '\n' = false), Bool.false_or]
    exact hgen.2.2.1
  · decide
  · rcases List.mem_map.1 hmem with ⟨t, ht, rfl⟩
    obtain ⟨⟨ch, hch⟩, ⟨c, hc⟩, hs⟩ := hts t ht
    rw [hch, hc]
    rcases hs with h | h | h <;> rw [h] <;> clear hch hc <;> revert c <;> revert ch <;>
      decide

lemma saveBlocks_newline_free :
    ∀ (groups : List ((String × String × String) × List (String × String × Int))),
      (∀ g ∈ groups, okGroup g) →
      ∀ l ∈ saveBlocks groups, strContainsChar l '\n' = false := by
  intro groups
  induction groups with
  | nil =>
    intro _ l hl
    simp [saveBlocks] at hl
  | cons g rest ih =>
    intro hall l hl
    cases rest with
    | nil => exact blockLines_newline_free g (hall g (List.mem_cons_self g _)) l hl
    | cons g' rest' =>
      rw [show saveBlocks (g :: g' :: rest')
          = blockLines g.1 g.2 ++ separatorLine :: saveBlocks (g' :: rest') from rfl] at hl
      rcases List.mem_append.1 hl with h | h
      · exact blockLines_newline_free g (hall g (List.mem_cons_self g _)) l h
      · rcases List.mem_cons.1 h with rfl | h'
        · decide
        · exact ih (fun x hx => hall x (List.mem_cons_of_mem g hx)) l h'

lemma loadTripleData_saveResults (results : List GenTriple)
    (hnl : ∀ l ∈ saveBlocks (groupResults results), strContainsChar l '\n' = false) :
    loadTripleData (saveResults results)
      = parseLines (saveBlocks (groupResults results)) := by
  have hall : ∀ l ∈ saveLines results, strContainsChar l '\n' = false := by
    intro l hl
    rcases List.mem_cons.1 hl with rfl | h
    · decide
    · exact hnl l h
  have hsplit : strSplitOnChar (saveResults results) '\n'
      = "应用名称,应用ID,应用类别,渠道,权限,是否存在该权限"
          :: (saveBlocks (groupResults results) ++ [""]) := by
    unfold saveResults
    rw [split_joinLines _ hall]
    rfl
  have hred : loadTripleData (saveResults results)
      = parseLines (saveBlocks (groupResults results) ++ [""]) := by
    unfold loadTripleData
    rw [hsplit]
    rfl
  rw [hred, parseLines_trailing]

/-! `save_results` grouping on databases with pairwise-distinct app keys. -/

lemma groupStep_last (acc : List ((String × String × String) × List (String × String × Int)))
    (k : String × String × String) (vs : List (String × String × Int)) (r : GenTriple)
    (hk : appKeyOf r = k) (hfresh : acc.any (fun p => p.1 == k) = false) :
    groupStep (acc ++ [(k, vs)]) r
      = acc ++ [(k, vs ++ [(r.channel, r.permission, r.status)])] := by
  subst hk
  unfold groupStep
  have hany : (acc ++ [(appKeyOf r, vs)]).any (fun p => p.1 == appKeyOf r) = true := by
    rw [List.any_append, hfresh, Bool.false_or]
    simp
  rw [if_pos hany, List.map_append]
  have h1 : acc.map (fun p => if p.1 == appKeyOf r
      then (p.1, p.2 ++ [(r.channel, r.permission, r.status)]) else p) = acc := by
    refine (List.map_congr_left ?_).trans (List.map_id acc)
    intro p hp
    rw [List.any_eq_false] at hfresh
    have hpf : ¬ (p.1 == appKeyOf r) = true := hfresh p hp
    rw [if_neg hpf]
    rfl
  rw [h1]
  simp

lemma group_block_cont (k : String × String × String) :
    ∀ (ts : List GenTriple)
      (acc : List ((String × String × String) × List (String × String × Int)))
      (vs : List (String × String × Int)),
      (∀ r ∈ ts, appKeyOf r = k) → acc.any (fun p => p.1 == k) = false →
      ts.foldl groupStep (acc ++ [(k, vs)])
        = acc ++ [(k, vs ++ ts.map (fun r => (r.channel, r.permission, r.status)))] := by
  intro ts
  induction ts with
  | nil =>
    intro acc vs _ _
    rw [List.foldl_nil, List.map_nil, List.append_nil]
  | cons r ts ih =>
    intro acc vs hk_all hfresh
    rw [List.foldl_cons, groupStep_last acc k vs r (hk_all r (List.mem_cons_self r ts)) hfresh,
      ih acc _ (fun x hx => hk_all x (List.mem_cons_of_mem r hx)) hfresh, List.map_cons,
      List.append_assoc]
    rfl

lemma group_block (k : String × String × String) (ts : List GenTriple)
    (acc : List ((String × String × String) × List (String × String × Int)))
    (hk_all : ∀ r ∈ ts, appKeyOf r = k) (hfresh : acc.any (fun p => p.1 == k) = false)
    (hne : ts ≠ []) :
    ts.foldl groupStep acc
      = acc ++ [(k, ts.map (fun r => (r.channel, r.permission, r.status)))] := by
  obtain ⟨r, ts', rfl⟩ := List.exists_cons_of_ne_nil hne
  rw [List.foldl_cons]
  have hkr := hk_all r (List.mem_cons_self r ts')
  have hstep : groupStep acc r = acc ++ [(k, [(r.channel, r.permission, r.status)])] := by
    unfold groupStep
    rw [hkr, hfresh, if_neg Bool.false_ne_true]
  rw [hstep, group_block_cont k ts' acc _ (fun x hx => hk_all x (List.mem_cons_of_mem r hx))
    hfresh, List.map_cons]
  rfl

lemma processAppDatabase_flatMap (apps : List AppJson) :
    processAppDatabase apps = apps.flatMap analyzePermissions := by
  unfold processAppDatabase
  have h : ∀ (l : List AppJson) (acc : List GenTriple),
      l.foldl (fun acc a => acc ++ analyzePermissions a) acc
        = acc ++ l.flatMap analyzePermissions := by
    intro l
    induction l with
    | nil => intro acc; rw [List.foldl_nil, List.flatMap_nil, List.append_nil]
    | cons a l ih =>
      intro acc
      rw [List.foldl_cons, ih, List.flatMap_cons, List.append_assoc]
  rw [h apps [], List.nil_append]

/-! Shape of the generator's output per app record. -/

lemma analyzeChannel_info (info : AppInfo) (n : String) (f : Option FieldVal) :
    ∀ t ∈ analyzeChannel info n f, t.info = info := by
  intro t ht
  match f with
  | none =>
    rcases List.mem_map.1 ht with ⟨c, _, rfl⟩; rfl
  | some (.flist items) =>
    rcases List.mem_map.1 ht with ⟨c, _, rfl⟩
    by_cases hc : (listChannelState items).2 c <;> simp [hc]
  | some (.fscalar v) =>
    rcases List.mem_append.1 ht with h | h <;>
      rcases List.mem_map.1 h with ⟨c, _, rfl⟩ <;> rfl

lemma analyzeChannel_perm (info : AppInfo) (n : String) (f : Option FieldVal) :
    ∀ t ∈ analyzeChannel info n f, ∃ c : Cat, t.permission = c.name := by
  intro t ht
  match f with
  | none =>
    rcases List.mem_map.1 ht with ⟨c, _, rfl⟩; exact ⟨c, rfl⟩
  | some (.flist items) =>
    rcases List.mem_map.1 ht with ⟨c, _, rfl⟩
    refine ⟨c, ?_⟩
    by_cases hc : (listChannelState items).2 c <;> simp [hc]
  | some (.fscalar v) =>
    rcases List.mem_append.1 ht with h | h <;>
      rcases List.mem_map.1 h with ⟨c, _, rfl⟩ <;> exact ⟨c, rfl⟩

lemma chanStep_fst_cases (st : (Cat → Int) × (Cat → Bool)) (cat c : Cat)
    (h : st.1 c = 0 ∨ st.1 c = 1) :
    (chanStep st cat).1 c = 0 ∨ (chanStep st cat).1 c = 1 := by
  unfold chanStep
  by_cases h0 : st.1 cat = 0
  · rw [if_pos h0]
    by_cases hc : c = cat <;> simp [hc, h]
  · by_cases h1 : st.1 cat = -1
    · rw [if_neg h0, if_pos h1]; exact h
    · rw [if_neg h0, if_neg h1]; exact h

lemma listChannelState_fst_cases (items : List String) (c : Cat) :
    (listChannelState items).1 c = 0 ∨ (listChannelState items).1 c = 1 := by
  unfold listChannelState
  have H2 : ∀ (cs : List Cat) (st' : (Cat → Int) × (Cat → Bool)),
      (∀ x, st'.1 x = 0 ∨ st'.1 x = 1) →
      ∀ x, ((cs.foldl chanStep st').1 x = 0 ∨ (cs.foldl chanStep st').1 x = 1) := by
    intro cs
    induction cs with
    | nil => intro st' h' x; exact h' x
    | cons cc cs ihc =>
      intro st' h' x
      exact ihc (chanStep st' cc) (fun y => chanStep_fst_cases st' cc y (h' y)) x
  have H : ∀ (its : List String) (st : (Cat → Int) × (Cat → Bool)),
      (∀ x, st.1 x = 0 ∨ st.1 x = 1) →
      ∀ x, ((its.foldl chanItemStep st).1 x = 0 ∨ (its.foldl chanItemStep st).1 x = 1) := by
    intro its
    induction its with
    | nil => intro st h x; exact h x
    | cons it its ih =>
      intro st h x
      exact ih (chanItemStep st it) (H2 (mapSingleItem it) st h) x
  exact H items _ (fun x => Or.inl rfl) c

lemma analyzeChannel_status (info : AppInfo) (n : String) (f : Option FieldVal) :
    ∀ t ∈ analyzeChannel info n f, t.status = -1 ∨ t.status = 0 ∨ t.status = 1 := by
  intro t ht
  match f with
  | none =>
    rcases List.mem_map.1 ht with ⟨c, _, rfl⟩
    right; left; rfl
  | some (.flist items) =>
    rcases List.mem_map.1 ht with ⟨c, _, rfl⟩
    by_cases hc : (listChannelState items).2 c
    · left; simp [hc]
    · rcases listChannelState_fst_cases items c with h0 | h1
      · right; left; simp [hc, h0]
      · right; right; simp [hc, h1]
  | some (.fscalar v) =>
    rcases List.mem_append.1 ht with h | h <;> rcases List.mem_map.1 h with ⟨c, _, rfl⟩
    · right; right; rfl
    · right; left; rfl

lemma analyzePermissions_key (a : AppJson) :
    ∀ r ∈ analyzePermissions a, appKeyOf r = genKeyOf a := by
  intro r hr
  unfold analyzePermissions at hr
  dsimp only at hr
  have hinfo : r.info = appInfoOf a := by
    rcases List.mem_append.1 hr with h12 | h3
    · rcases List.mem_append.1 h12 with h1 | h2
      · exact analyzeChannel_info _ _ _ r h1
      · exact analyzeChannel_info _ _ _ r h2
    · exact analyzeChannel_info _ _ _ r h3
  unfold appKeyOf genKeyOf
  rw [hinfo]

lemma analyzePermissions_ne_nil (a : AppJson) : analyzePermissions a ≠ [] := by
  intro h
  have hlen := congrArg List.length h
  unfold analyzePermissions at hlen
  dsimp only at hlen
  rw [List.length_append, List.length_append, analyzeChannel_length, analyzeChannel_length,
    analyzeChannel_length] at hlen
  simp at hlen

lemma analyzePermissions_wf (a : AppJson) :
    ∀ r ∈ analyzePermissions a, okTriple (r.channel, r.permission, r.status) := by
  intro r hr
  unfold analyzePermissions at hr
  dsimp only at hr
  rcases List.mem_append.1 hr with h12 | h3
  · rcases List.mem_append.1 h12 with h1 | h2
    · exact ⟨⟨Chan.c1, analyzeChannel_channel _ _ _ r h1⟩,
        analyzeChannel_perm _ _ _ r h1, analyzeChannel_status _ _ _ r h1⟩
    · exact ⟨⟨Chan.c2, analyzeChannel_channel _ _ _ r h2⟩,
        analyzeChannel_perm _ _ _ r h2, analyzeChannel_status _ _ _ r h2⟩
  · exact ⟨⟨Chan.c3, analyzeChannel_channel _ _ _ r h3⟩,
      analyzeChannel_perm _ _ _ r h3, analyzeChannel_status _ _ _ r h3⟩

lemma okGroup_gen (a : AppJson)
    (hn : okStr (appInfoOf a).app_name "应用名称:")
    (hi : okStr (appInfoOf a).app_id "应用ID:")
    (hg : okStr (appInfoOf a).genre "应用类别:") :
    okGroup (genKeyOf a, genTriplesOf a) := by
  refine ⟨hn, hi, hg, ?_, ?_⟩
  · intro h
    cases hap : analyzePermissions a with
    | nil => exact analyzePermissions_ne_nil a hap
    | cons x xs =>
      unfold genTriplesOf at h
      rw [hap, List.map_cons] at h
      exact List.noConfusion h
  · intro t ht
    unfold genTriplesOf at ht
    rcases List.mem_map.1 ht with ⟨r, hr, rfl⟩
    exact analyzePermissions_wf a r hr

lemma groupResults_gen (apps : List AppJson) (hnd : (apps.map genKeyOf).Nodup) :
    groupResults (processAppDatabase apps)
      = apps.map (fun a => (genKeyOf a, genTriplesOf a)) := by
  rw [processAppDatabase_flatMap]
  unfold groupResults
  have H : ∀ (l : List AppJson)
      (acc : List ((String × String × String) × List (String × String × Int))),
      (l.map genKeyOf).Nodup →
      (∀ k ∈ l.map genKeyOf, acc.any (fun p => p.1 == k) = false) →
      (l.flatMap analyzePermissions).foldl groupStep acc
        = acc ++ l.map (fun a => (genKeyOf a, genTriplesOf a)) := by
    intro l
    induction l with
    | nil =>
      intro acc _ _
      rw [List.flatMap_nil, List.foldl_nil, List.map_nil, List.append_nil]
    | cons a l ih =>
      intro acc hnd hfr
      rw [List.flatMap_cons, List.foldl_append,
        group_block (genKeyOf a) (analyzePermissions a) acc (analyzePermissions_key a)
          (hfr (genKeyOf a) (by rw [List.map_cons]; exact List.mem_cons_self _ _))
          (analyzePermissions_ne_nil a)]
      rw [List.map_cons] at hnd
      have hnd' := List.nodup_cons.1 hnd
      have e : (analyzePermissions a).map (fun r => (r.channel, r.permission, r.status))
          = genTriplesOf a := rfl
      rw [e, ih (acc ++ [(genKeyOf a, genTriplesOf a)]) hnd'.2 ?_, List.map_cons,
        List.append_assoc]
      · rfl
      · intro k hk
        rw [List.any_append]
        have h1 : acc.any (fun p => p.1 == k) = false :=
          hfr k (by rw [List.map_cons]; exact List.mem_cons_of_mem _ hk)
        have h2 : ([((genKeyOf a, genTriplesOf a) :
            (String × String × String) × List (String × String × Int))].any
              (fun p => p.1 == k)) = false := by
          simp only [List.any_cons, List.any_nil, Bool.or_false]
          rw [beq_eq_false_iff_ne]
          intro hcon
          exact hnd'.1 (hcon ▸ hk)
        rw [h1, h2]
        rfl
  have := H apps [] hnd (fun k _ => rfl)
  rw [this, List.nil_append]

set_option maxRecDepth 100000 in
/-- C7 (counterexample): the per-app round-trip of the claim fails on
`c7Apps`, two distinct app records whose name/id/genre key coincides:
`save_results` groups its output by that key, so the written file holds a
single merged block and `load_triple_data` returns one app carrying all
54 = 2 × 27 triples instead of the two generated 27-triple apps. -/
theorem c7_counterexample :
    c7Apps.length = 2
    ∧ (loadTripleData (saveResults (processAppDatabase c7Apps))).length = 1
    ∧ ∀ p ∈ loadTripleData (saveResults (processAppDatabase c7Apps)),
        p.triples.length = 54 := by
  decide

/-- C7 (corrected): the claimed per-app round-trip fails in general because
`save_results` groups triples under the (name, id, genre) key, merging apps
that share it (see `c7_counterexample`).  Amended statement: when the app
keys are pairwise distinct and every name/id/genre field is
whitespace-trimmed, newline-free and does not contain its own line marker,
re-parsing the written file reproduces — app by app, in order — exactly the
generated (channel, permission, status) triples, which subsumes the per-app
multiset equality of the claim. -/
theorem c7_roundtrip (apps : List AppJson)
    (hnd : (apps.map genKeyOf).Nodup)
    (hok : ∀ a ∈ apps, okStr (appInfoOf a).app_name "应用名称:"
        ∧ okStr (appInfoOf a).app_id "应用ID:" ∧ okStr (appInfoOf a).genre "应用类别:") :
    loadTripleData (saveResults (processAppDatabase apps))
      = apps.map (fun a =>
          ({ app_name := (appInfoOf a).app_name, app_id := (appInfoOf a).app_id,
             genre := (appInfoOf a).genre,
             triples := (analyzePermissions a).map
               (fun r => ⟨r.channel, r.permission, r.status⟩) } : ParsedApp)) := by
  have hgroups : groupResults (processAppDatabase apps)
      = apps.map (fun a => (genKeyOf a, genTriplesOf a)) := groupResults_gen apps hnd
  have hallg : ∀ g ∈ groupResults (processAppDatabase apps), okGroup g := by
    rw [hgroups]
    intro g hg
    rcases List.mem_map.1 hg with ⟨a, ha, rfl⟩
    obtain ⟨h1, h2, h3⟩ := hok a ha
    exact okGroup_gen a h1 h2 h3
  have hnl : ∀ l ∈ saveBlocks (groupResults (processAppDatabase apps)),
      strContainsChar l '\n' = false :=
    saveBlocks_newline_free (groupResults (processAppDatabase apps)) hallg
  rw [loadTripleData_saveResults _ hnl, parseLines_saveBlocks _ hallg, hgroups,
    List.map_map]
  refine List.map_congr_left ?_
  intro a _
  show (⟨(genKeyOf a).1, (genKeyOf a).2.1, (genKeyOf a).2.2,
      (genTriplesOf a).map ptripleOf⟩ : ParsedApp) = _
  unfold genTriplesOf
  rw [List.map_map]
  rfl

/-- Witness for `c7_roundtrip`: a concrete one-app database satisfying its
hypotheses, with the round-trip instance concluded from the theorem. -/
theorem c7_witness :
    ((([c7wApp] : List AppJson).map genKeyOf).Nodup
      ∧ ∀ a ∈ ([c7wApp] : List AppJson), okStr (appInfoOf a).app_name "应用名称:"
          ∧ okStr (appInfoOf a).app_id "应用ID:" ∧ okStr (appInfoOf a).genre "应用类别:")
    ∧ loadTripleData (saveResults (processAppDatabase [c7wApp]))
        = [c7wApp].map (fun a =>
            ({ app_name := (appInfoOf a).app_name, app_id := (appInfoOf a).app_id,
               genre := (appInfoOf a).genre,
               triples := (analyzePermissions a).map
                 (fun r => ⟨r.channel, r.permission, r.status⟩) } : ParsedApp)) :=
  ⟨⟨by decide, by decide⟩, c7_roundtrip [c7wApp] (by decide) (by decide)⟩
